import Mathlib

/-!
# eslog: levels, gate, facade and the pretty handler

A shallow embedding of the Go package `github.com/eliofery/eslog` (files
`config.go`, `logger.go`, `pretty/pretty.go`, `pretty/utils.go`).

* Go values of the standard library that the package only passes around
  (`slog.Level`, `slog.Value`, `slog.Attr`, `slog.Record`, `time.Time`) are
  modelled by small concrete types in the namespaces `Slog` and `GoTime`.
* Library functions whose result depends on the process environment
  (terminal colours, `fmt.Sprintf`, the call stack, the working directory,
  `path/filepath`) are fields of the structure `Env`, and every function of
  the package takes the environment as its first argument.
* A run-time panic of Go is the `Except.error` branch of the result.
-/

set_option autoImplicit false

/-! ## `log/slog`: levels -/

namespace Slog

/-- The type `slog.Level` (a Go `int`). -/
abbrev Level := Int

/-- The constant `slog.LevelDebug`. -/
def LevelDebug : Level := -4

/-- The constant `slog.LevelInfo`. -/
def LevelInfo : Level := 0

/-- The constant `slog.LevelWarn`. -/
def LevelWarn : Level := 4

/-- The constant `slog.LevelError`. -/
def LevelError : Level := 8

/-- The constant `slog.TimeKey`. -/
def TimeKey : String := "time"

/-- The constant `slog.LevelKey`. -/
def LevelKey : String := "level"

/-- The constant `slog.SourceKey`. -/
def SourceKey : String := "source"

end Slog

/-! ## `config.go` and the level constants of `logger.go` -/

namespace Eslog

/-- The constant `LevelTrace` of `logger.go`. -/
def LevelTrace : Slog.Level := -8

/-- The constant `LevelFatal` of `logger.go`. -/
def LevelFatal : Slog.Level := 12

/-- The constant `levelDefault` of `config.go`. -/
def levelDefault : String := "info"

/-- The entries of the map `Level` of `config.go`. -/
def LevelEntries : List (String × Slog.Level) :=
  [ ("trace", LevelTrace),
    ("debug", Slog.LevelDebug),
    ("info", Slog.LevelInfo),
    ("warn", Slog.LevelWarn),
    ("error", Slog.LevelError),
    ("fatal", LevelFatal) ]

/-- The map `Level` of `config.go`: the two-valued index expression
`Level[name]`, `none` standing for `ok = false`. -/
def Level (name : String) : Option Slog.Level :=
  LevelEntries.lookup name

/-- The struct `Config` of `config.go`. -/
structure Config where
  Level : String := ""
  AddSource : Bool := false
  JSON : Bool := false

/-- The method `Config.Leveler` of `config.go`.  The one-valued index
expression `Level[levelDefault]` yields the zero level when the key is
missing. -/
def Config.Leveler (c : Config) : Slog.Level :=
  match Eslog.Level c.Level with
  | none => (Eslog.Level levelDefault).getD 0
  | some level => level

end Eslog

/-! ## Text helpers of the Go runtime (`strconv`, `fmt` on integers) -/

namespace GoText

/-- Decimal digits of a natural number (`strconv.Itoa` on a non-negative
value). -/
def decimal (n : Nat) : String :=
  String.mk (Nat.toDigits 10 n)

/-- Decimal digits, left-padded with zeros to the given width (`appendInt`
of package `time`). -/
def padded (width n : Nat) : String :=
  let digits := Nat.toDigits 10 n
  String.mk (List.replicate (width - digits.length) '0' ++ digits)

/-- The verb `%d` on an integer. -/
def formatInt (i : Int) : String :=
  if i < 0 then "-" ++ decimal i.natAbs else decimal i.natAbs

/-- The verb `%+d` on an integer: the sign is always written. -/
def formatSigned (i : Int) : String :=
  if i < 0 then "-" ++ decimal i.natAbs else "+" ++ decimal i.natAbs

/-- The value of `strings.Replace(s, "\n", " ", -1)`: every line feed is
replaced by one space. -/
def replaceLineFeeds (s : String) : String :=
  String.mk (s.data.map fun c => if c = '\n' then ' ' else c)

end GoText

/-! ## `time.Time` and the three layouts the package formats with -/

namespace GoTime

/-- A `time.Time` without monotonic clock reading, given by its civil
fields in its own location: the zone abbreviation and the offset east of
UTC in seconds are those of the location at that instant. -/
structure Time where
  year : Nat
  month : Nat
  day : Nat
  hour : Nat
  minute : Nat
  second : Nat
  nanosecond : Nat
  zoneName : String
  zoneOffset : Int

/-- The method `Time.Round(0)`: it strips the monotonic clock reading and
changes nothing else; the model carries no such reading. -/
def Time.Round0 (t : Time) : Time := t

/-- The date and clock part `2006-01-02?15:04:05` shared by the layouts,
with the separator between date and clock as argument. -/
def Time.dateClock (t : Time) (sep : String) : String :=
  GoText.padded 4 t.year ++ "-" ++ GoText.padded 2 t.month ++ "-" ++
  GoText.padded 2 t.day ++ sep ++ GoText.padded 2 t.hour ++ ":" ++
  GoText.padded 2 t.minute ++ ":" ++ GoText.padded 2 t.second

/-- Drop the zeros at the end of a list of digits. -/
def trimZeros (digits : List Char) : List Char :=
  (digits.reverse.dropWhile fun c => c = '0').reverse

/-- The layout element `.999999999`: nothing when the nanoseconds are zero,
else a point and the nine digits without trailing zeros. -/
def Time.fraction (t : Time) : String :=
  if t.nanosecond = 0 then ""
  else "." ++ String.mk (trimZeros (GoText.padded 9 t.nanosecond).data)

/-- The numeric zone of the layout elements `-0700` (no colon) and
`-07:00` (colon): the offset is first truncated to minutes. -/
def Time.zoneNumeric (t : Time) (colon : Bool) : String :=
  let zone := Int.tdiv t.zoneOffset 60
  let sign := if zone < 0 then "-" else "+"
  let minutes := zone.natAbs
  sign ++ GoText.padded 2 (minutes / 60) ++ (if colon then ":" else "") ++
    GoText.padded 2 (minutes % 60)

/-- The value of `t.Format(time.DateTime)`, layout `2006-01-02 15:04:05`. -/
def Time.FormatDateTime (t : Time) : String :=
  t.dateClock " "

/-- The value of `t.Format(time.RFC3339Nano)`, layout
`2006-01-02T15:04:05.999999999Z07:00`. -/
def Time.FormatRFC3339Nano (t : Time) : String :=
  t.dateClock "T" ++ t.fraction ++
    (if t.zoneOffset = 0 then "Z" else t.zoneNumeric true)

/-- The method `Time.String` on a time without monotonic reading, layout
`2006-01-02 15:04:05.999999999 -0700 MST`; a location without abbreviation
is written in the numeric form. -/
def TimeString (t : Time) : String :=
  t.dateClock " " ++ t.fraction ++ " " ++ t.zoneNumeric false ++ " " ++
    (if t.zoneName ≠ "" then t.zoneName else t.zoneNumeric false)

end GoTime

/-! ## `log/slog`: values, attributes, records -/

namespace Slog

/-- The method `Level.String` of `log/slog`. -/
def LevelString (l : Level) : String :=
  let str := fun (base : String) (val : Level) =>
    if val = 0 then base else base ++ GoText.formatSigned val
  if l < LevelInfo then str "DEBUG" (l - LevelDebug)
  else if l < LevelWarn then str "INFO" (l - LevelInfo)
  else if l < LevelError then str "WARN" (l - LevelWarn)
  else str "ERROR" (l - LevelError)

/-- The Go values that occur as `slog.Value`, as log arguments and as
attribute values.  Each constructor is one dynamic type:
a string, an `int64`, a `bool`, a `time.Time`, an `slog.Level`, an
`slog.Source`, an `slog.Attr` used as a value, the nil interface, and a
value that `encoding/json` rejects (a channel, a function), given by the
text `fmt` prints for it.  Groups and `LogValuer`s are outside the model. -/
inductive Value where
  | string (s : String)
  | int64 (i : Int)
  | bool (b : Bool)
  | time (t : GoTime.Time)
  | level (l : Level)
  | source (function file : String) (line : Int)
  | attr (key : String) (value : Value)
  | nil
  | unsupported (text : String)

/-- The method `Value.String` of `log/slog`: a string value is returned as
it is, the other kinds are written as `fmt` writes them with `%v`. -/
def ValueString : Value → String
  | .string s => s
  | .int64 i => GoText.formatInt i
  | .bool b => if b then "true" else "false"
  | .time t => GoTime.TimeString t
  | .level l => LevelString l
  | .source function file line =>
      "\x7b" ++ function ++ " " ++ file ++ " " ++ GoText.formatInt line ++ "\x7d"
  | .attr key value => key ++ "=" ++ ValueString value
  | .nil => "<nil>"
  | .unsupported text => text

/-- The struct `slog.Attr`. -/
structure Attr where
  Key : String
  Value : Value

/-- The struct `slog.Source`. -/
structure Source where
  Function : String := ""
  File : String := ""
  Line : Int := 0

/-- The constructor `slog.Time(key, t)`. -/
def Time (key : String) (t : GoTime.Time) : Attr := ⟨key, .time t⟩

/-- The constructor `slog.Any(key, level)` on an `slog.Level`. -/
def AnyLevel (key : String) (l : Level) : Attr := ⟨key, .level l⟩

/-- The constructor `slog.Any(key, src)` on an `slog.Source`. -/
def AnySource (key : String) (src : Source) : Attr :=
  ⟨key, .source src.Function src.File src.Line⟩

/-- The struct `slog.Record`: time, message, level, program counter of the
call site and the attributes in the order they were added. -/
structure Record where
  Time : GoTime.Time
  Message : String
  Level : Level
  PC : Nat
  attrs : List Attr := []

/-- The function `slog.NewRecord`. -/
def NewRecord (t : GoTime.Time) (level : Level) (msg : String) (pc : Nat) : Record :=
  { Time := t, Message := msg, Level := level, PC := pc }

/-- The constant `badKey` of `log/slog`. -/
def badKey : String := "!BADKEY"

/-- The attributes `Record.Add` builds from an argument list (the loop over
`argsToAttr`): an `Attr` argument is taken as it is, a string followed by a
value is a key with its value, a last lone string and any other value get
the key `!BADKEY`. -/
def argsToAttrs : List Value → List Attr
  | [] => []
  | [.string x] => [⟨badKey, .string x⟩]
  | .string x :: v :: rest => ⟨x, v⟩ :: argsToAttrs rest
  | .attr key value :: rest => ⟨key, value⟩ :: argsToAttrs rest
  | x :: rest => ⟨badKey, x⟩ :: argsToAttrs rest

/-- The method `Record.Add`. -/
def Record.Add (r : Record) (args : List Value) : Record :=
  { r with attrs := r.attrs ++ argsToAttrs args }

/-- The method `Record.NumAttrs`. -/
def Record.NumAttrs (r : Record) : Nat := r.attrs.length

end Slog

/-! ## `encoding/json` on the values of the model -/

namespace GoJSON

/-- A JSON text as `encoding/json` builds it: the members of an object are
kept in the order they are written. -/
inductive JSON where
  | null
  | bool (b : Bool)
  | num (i : Int)
  | str (s : String)
  | obj (members : List (String × JSON))

/-- One character of a string as `encoding/json` writes it (Go 1.22 and
later, HTML escaping on as in `Marshal` and `MarshalIndent`). -/
def escapeChar (c : Char) : List Char :=
  if c = '"' then ['\\', '"']
  else if c = '\\' then ['\\', '\\']
  else if c = Char.ofNat 8 then ['\\', 'b']
  else if c = Char.ofNat 12 then ['\\', 'f']
  else if c = '\n' then ['\\', 'n']
  else if c = '\r' then ['\\', 'r']
  else if c = '\t' then ['\\', 't']
  else if c.toNat < 32 ∨ c = '<' ∨ c = '>' ∨ c = '&' then
    ['\\', 'u', '0', '0', Nat.digitChar (c.toNat / 16), Nat.digitChar (c.toNat % 16)]
  else if c = Char.ofNat 0x2028 then ['\\', 'u', '2', '0', '2', '8']
  else if c = Char.ofNat 0x2029 then ['\\', 'u', '2', '0', '2', '9']
  else [c]

/-- A string literal of JSON: the escaped characters between quotes. -/
def quote (s : String) : String :=
  String.mk ('"' :: (s.data.flatMap escapeChar ++ ['"']))

/-- The indentation `"  "` repeated `depth` times. -/
def indentation (depth : Nat) : String :=
  String.mk (List.replicate (2 * depth) ' ')

mutual
/-- The compact text of `json.Marshal`. -/
def JSON.compact : JSON → String
  | .null => "null"
  | .bool b => if b then "true" else "false"
  | .num i => GoText.formatInt i
  | .str s => quote s
  | .obj members => "\x7b" ++ JSON.compactMembers members ++ "\x7d"
/-- The members of an object in compact form, separated by commas. -/
def JSON.compactMembers : List (String × JSON) → String
  | [] => ""
  | [(k, v)] => quote k ++ ":" ++ JSON.compact v
  | (k, v) :: rest => quote k ++ ":" ++ JSON.compact v ++ "," ++ JSON.compactMembers rest
end

mutual
/-- The indented text of `json.MarshalIndent(v, "", "  ")` for a value that
starts at nesting depth `depth`. -/
def JSON.indented (depth : Nat) : JSON → String
  | .null => "null"
  | .bool b => if b then "true" else "false"
  | .num i => GoText.formatInt i
  | .str s => quote s
  | .obj [] => "\x7b\x7d"
  | .obj members =>
      "\x7b\n" ++ JSON.indentedMembers (depth + 1) members ++ "\n" ++
        indentation depth ++ "\x7d"
/-- The members of an object in indented form, one per line. -/
def JSON.indentedMembers (depth : Nat) : List (String × JSON) → String
  | [] => ""
  | [(k, v)] => indentation depth ++ quote k ++ ": " ++ JSON.indented depth v
  | (k, v) :: rest =>
      indentation depth ++ quote k ++ ": " ++ JSON.indented depth v ++ ",\n" ++
        JSON.indentedMembers depth rest
end

/-- The JSON encoding of the Go value held by a `slog.Value` (the value
`Value.Any()` returns), `none` when `encoding/json` reports an error.
A time is written by `Time.MarshalJSON` (RFC 3339, refused when the year
has more than four digits or the zone hour is 24 or more), a level by
`Level.MarshalJSON`, a source by its field tags, an `Attr` as a struct whose
`Value` field has no exported field. -/
def encodeValue : Slog.Value → Option JSON
  | .string s => some (.str s)
  | .int64 i => some (.num i)
  | .bool b => some (.bool b)
  | .time t =>
      if 9999 < t.year then none
      else if t.zoneOffset ≠ 0 ∧ 24 ≤ (Int.tdiv t.zoneOffset 60).natAbs / 60 then none
      else some (.str t.FormatRFC3339Nano)
  | .level l => some (.str (Slog.LevelString l))
  | .source function file line =>
      some (.obj [("function", .str function), ("file", .str file), ("line", .num line)])
  | .attr key _ => some (.obj [("Key", .str key), ("Value", .obj [])])
  | .nil => some .null
  | .unsupported _ => none

/-- A Go `map[string]any`, represented by its entries in increasing key
order, the order in which `encoding/json` writes a map. -/
abbrev GoMap := List (String × Slog.Value)

/-- The assignment `m[key] = value`: a present key gets the new value. -/
def GoMap.set : GoMap → String → Slog.Value → GoMap
  | [], key, value => [(key, value)]
  | (k, v) :: rest, key, value =>
      if key = k then (key, value) :: rest
      else if key < k then (key, value) :: (k, v) :: rest
      else (k, v) :: GoMap.set rest key value

/-- The members of the JSON object of a map, `none` when one value has no
encoding. -/
def encodeMembers : GoMap → Option (List (String × JSON))
  | [] => some []
  | (k, v) :: rest =>
      match encodeValue v, encodeMembers rest with
      | some j, some js => some ((k, j) :: js)
      | _, _ => none

/-- The function `json.Marshal` on a `map[string]any`; `none` is the error
result, whose byte slice is nil. -/
def Marshal (m : GoMap) : Option String :=
  (encodeMembers m).map fun members => (JSON.obj members).compact

/-- The function `json.MarshalIndent(m, "", "  ")` on a `map[string]any`. -/
def MarshalIndent (m : GoMap) : Option String :=
  (encodeMembers m).map fun members => (JSON.obj members).indented 0

end GoJSON

/-! ## The process environment -/

/-- The colour functions of `github.com/fatih/color` that the package
uses. -/
inductive ColorFn where
  | WhiteString
  | HiWhiteString
  | HiGreenString
  | HiYellowString
  | HiMagentaString
  | HiRedString
  deriving DecidableEq

/-- The struct `runtime.Frame`, the fields the package reads. -/
structure Frame where
  Function : String := ""
  File : String := ""
  Line : Int := 0

/-- The library functions whose result depends on the process environment.

* `color f s`: the colour function `f` called with the single argument `s`
  (no formatting arguments, so `s` is styled as it is);
* `Sprintf`: `fmt.Sprintf`;
* `CallersFrame pc`: the first frame of `runtime.CallersFrames` on the one
  program counter `pc`;
* `Getwd`: `os.Getwd`, `none` for an error;
* `Rel base target`: `filepath.Rel`, `none` for an error;
* `Base path`: `filepath.Base`. -/
structure Env where
  color : ColorFn → String → String
  Sprintf : String → List Slog.Value → String
  CallersFrame : Nat → Frame
  Getwd : Option String
  Rel : String → String → Option String
  Base : String → String

/-- The message of the run-time panic of a nil pointer dereference and of a
call of a nil function value. -/
def nilDereference : String :=
  "runtime error: invalid memory address or nil pointer dereference"

namespace Slog

/-- A value of the interface `slog.Leveler`: a constant `slog.Level`, or
the `*slog.LevelVar` of the model, the level holder that is handed to
`eslog.New`. -/
inductive Leveler where
  | level (l : Level)
  | levelVar

/-- The method `Leveler.Level`, given the current content of the level
holder. -/
def Leveler.Level (lv : Leveler) (holder : Slog.Level) : Slog.Level :=
  match lv with
  | .level l => l
  | .levelVar => holder

/-- The struct `slog.HandlerOptions`. -/
structure HandlerOptions where
  AddSource : Bool := false
  Level : Option Leveler := none
  ReplaceAttr : Option (List String → Attr → Attr) := none

/-- A `*slog.TextHandler`, of which the package uses the method `Enabled`
only: the handler with its options. -/
structure TextHandler where
  opts : HandlerOptions

/-- The function `slog.NewTextHandler(out, opts)`: nil options are replaced
by the zero options. -/
def NewTextHandler (opts : Option HandlerOptions) : TextHandler :=
  match opts with
  | none => { opts := {} }
  | some o => { opts := o }

/-- The method `TextHandler.Enabled`: the minimum level is `LevelInfo`
unless the options name a leveler. -/
def TextHandler.Enabled (h : TextHandler) (holder : Slog.Level) (l : Slog.Level) : Bool :=
  let minLevel :=
    match h.opts.Level with
    | none => LevelInfo
    | some lv => lv.Level holder
  decide (minLevel ≤ l)

end Slog

/-! ## `pretty/pretty.go` and `pretty/utils.go` -/

namespace Pretty

open Slog

/-- The struct `jsonMessage`. -/
structure jsonMessage where
  Time : String := ""
  Level : String := ""
  Source : String := ""
  Message : String := ""
  Attrs : String := ""

/-- The members `json.Marshal` writes for a `jsonMessage`: every field is a
string with the option `omitempty`, so an empty field has no member. -/
def jsonMessage.members (m : jsonMessage) : List (String × GoJSON.JSON) :=
  ([("time", m.Time), ("level", m.Level), ("source", m.Source),
    ("msg", m.Message), ("attrs", m.Attrs)].filter fun kv => kv.2 ≠ "").map
    fun kv => (kv.1, GoJSON.JSON.str kv.2)

/-- The function `json.Marshal` on a `jsonMessage`; it has no error case. -/
def jsonMessage.Marshal (m : jsonMessage) : String :=
  (GoJSON.JSON.obj m.members).compact

/-- The struct `HandlerOptions` of package `pretty`; `SlogOptions` is a
pointer and may be nil. -/
structure HandlerOptions where
  SlogOptions : Option Slog.HandlerOptions := none
  JSON : Bool := false

/-- The struct `pretty`: the embedded text handler and the options (the
embedded `*log.Logger` writes to the sink with no line header). -/
structure pretty where
  Handler : Slog.TextHandler
  HandlerOptions : HandlerOptions

/-- The function `NewHandler`. -/
def NewHandler (opts : Option HandlerOptions) : pretty :=
  let opts : HandlerOptions :=
    match opts with
    | none => {}
    | some o => o
  { Handler := Slog.NewTextHandler opts.SlogOptions, HandlerOptions := opts }

/-- The struct `NameColor`; `color = none` is the nil function of the zero
value. -/
structure NameColor where
  name : String := ""
  color : Option ColorFn := none

/-- The type `replaceAttrFn`. -/
abbrev replaceAttrFn := List String → Attr → Attr

/-- The entries of the map `LevelConf`. -/
def LevelConfEntries : List (Slog.Level × NameColor) :=
  [ (Eslog.LevelTrace, ⟨"TRACE", some .WhiteString⟩),
    (Slog.LevelDebug, ⟨"DEBUG", some .HiWhiteString⟩),
    (Slog.LevelInfo, ⟨"INFO", some .HiGreenString⟩),
    (Slog.LevelWarn, ⟨"WARN", some .HiYellowString⟩),
    (Slog.LevelError, ⟨"ERROR", some .HiMagentaString⟩),
    (Eslog.LevelFatal, ⟨"FATAL", some .HiRedString⟩) ]

/-- The map `LevelConf`: the two-valued index expression, `none` standing
for `ok = false`. -/
def LevelConf (l : Slog.Level) : Option NameColor :=
  LevelConfEntries.lookup l

/-- The method `pretty.dateTime`. -/
def pretty.dateTime (p : pretty) (env : Env) (r : Record)
    (replaceAttrFn : Option replaceAttrFn) : String :=
  let timeStr := r.Time.FormatDateTime
  let timeStr := if p.HandlerOptions.JSON then r.Time.FormatRFC3339Nano else timeStr
  let timeStr :=
    match replaceAttrFn with
    | some fn =>
        let attr := fn [] (Slog.Time Slog.TimeKey r.Time.Round0)
        if attr.Key ≠ "" then ValueString attr.Value else timeStr
    | none => timeStr
  if p.HandlerOptions.JSON then timeStr
  else env.color .WhiteString timeStr

/-- The method `pretty.level`.  On a level that is not in `LevelConf` the
looked-up entry is the zero `NameColor`, whose colour function is nil, and
calling it panics. -/
def pretty.level (p : pretty) (env : Env) (r : Record)
    (replaceAttrFn : Option replaceAttrFn) : Except String String :=
  let level : NameColor :=
    match LevelConf r.Level with
    | some entry => entry
    | none => { ({} : NameColor) with name := LevelString r.Level }
  let level : NameColor :=
    match replaceAttrFn with
    | some fn =>
        let attr := fn [] (Slog.AnyLevel Slog.LevelKey r.Level)
        if attr.Key ≠ "" then { level with name := ValueString attr.Value } else level
    | none => level
  if p.HandlerOptions.JSON then pure level.name
  else
    match level.color with
    | some color => pure (env.color color level.name)
    | none => throw nilDereference

/-- The method `pretty.source`.  Reading `p.SlogOptions.AddSource` through
a nil `SlogOptions` panics. -/
def pretty.source (p : pretty) (env : Env) (r : Record)
    (replaceAttrFn : Option replaceAttrFn) : Except String String :=
  let pathSource := ""
  match p.HandlerOptions.SlogOptions with
  | none => throw nilDereference
  | some slogOptions =>
    if !slogOptions.AddSource then pure pathSource
    else
      let f := env.CallersFrame r.PC
      if f.File = "" then pure pathSource
      else
        let src : Slog.Source := { Function := f.Function, File := f.File, Line := f.Line }
        match env.Getwd with
        | none => pure pathSource
        | some pwd =>
          match env.Rel pwd src.File with
          | none => pure pathSource
          | some relPath =>
            let basePath := env.Base relPath
            let pathSource := basePath ++ ":" ++ GoText.formatInt src.Line
            match replaceAttrFn with
            | some fn =>
                let attr := fn [] (Slog.AnySource Slog.SourceKey src)
                if attr.Key ≠ "" then pure (ValueString attr.Value) else pure pathSource
            | none => pure pathSource

/-- The method `pretty.message`. -/
def pretty.message (p : pretty) (env : Env) (r : Record) : String :=
  if p.HandlerOptions.JSON then r.Message
  else env.color .HiWhiteString r.Message

/-- The map that `pretty.attrs` fills from the attributes of the record, in
their order: a later attribute overwrites an earlier one of the same key. -/
def collectAttrs (r : Record) : GoJSON.GoMap :=
  r.attrs.foldl (fun attrs a => GoJSON.GoMap.set attrs a.Key a.Value) []

/-- The method `pretty.attrs`: the error of the encoder is dropped and its
nil byte slice becomes the empty string. -/
def pretty.attrs (p : pretty) (r : Record) : String :=
  let attrs := collectAttrs r
  let jsonAttrs :=
    if p.HandlerOptions.JSON then GoJSON.Marshal attrs
    else GoJSON.MarshalIndent attrs
  jsonAttrs.getD ""

/-- What one call of `Handle` does when it returns: the bytes it wrote to
the sink and the error it returned (`none` is nil). -/
structure Handled where
  written : String
  err : Option String

/-- The method `Logger.Println` of the embedded `*log.Logger` on one string:
the string and a line feed are written in one call of `Write`. -/
def Println (s : String) : String := s ++ "\n"

/-- The method `pretty.Handle`.  The first statement reads
`p.SlogOptions.ReplaceAttr` and panics on a nil `SlogOptions`. -/
def pretty.Handle (p : pretty) (env : Env) (record : Record) : Except String Handled := do
  let fn ←
    match p.HandlerOptions.SlogOptions with
    | none => throw nilDereference
    | some slogOptions => pure slogOptions.ReplaceAttr
  let time := p.dateTime env record fn
  let level ← p.level env record fn
  let source ← p.source env record fn
  let message := p.message env record
  let attrs := p.attrs record
  if p.HandlerOptions.JSON then
    let jsonResult := jsonMessage.Marshal
      { Time := time, Level := level, Source := source, Message := message, Attrs := attrs }
    pure { written := Println jsonResult, err := none }
  else
    let result :=
      if source ≠ "" then time ++ " " ++ level ++ " " ++ source ++ " " ++ message
      else time ++ " " ++ level ++ " " ++ message
    let result := if attrs.utf8ByteSize > 2 then result ++ " " ++ attrs else result
    pure { written := Println result, err := none }

end Pretty

/-! ## `logger.go` -/

namespace Eslog

open Slog

/-- A value of the interface `slog.Handler`, the two methods the logger
calls.  `Enabled holder l` is the answer of `Enabled` for level `l` while
the level holder handed to `New` contains `holder`; `Handle r` is a panic
(`Except.error`) or what the call wrote and returned. -/
structure Handler where
  Enabled : Slog.Level → Slog.Level → Bool
  Handle : Record → Except String Pretty.Handled

/-- The handler that `pretty.NewHandler` returns, as an `slog.Handler`:
`Enabled` is the promoted method of the embedded text handler. -/
def prettyHandler (env : Env) (p : Pretty.pretty) : Handler :=
  { Enabled := p.Handler.Enabled, Handle := p.Handle env }

/-- The state of a running process that the logger reads and writes: the
content of the `*slog.LevelVar` handed to `New`, the records handed to the
handler so far and the writes to the sink so far, oldest first. -/
structure Process where
  level : Slog.Level
  handed : List Record := []
  out : List String := []

/-- How a call ends: it returns, it ends the process through `os.Exit`, or
it panics. -/
inductive Ending where
  | returned
  | exited (code : Nat)
  | panicked (msg : String)

/-- The state after a call and how the call ended. -/
structure Outcome where
  state : Process
  ending : Ending

/-- What a call reads from its surroundings: the value of `time.Now()` and
the program counter that `runtime.Callers(3, ...)` stores. -/
structure Call where
  now : GoTime.Time
  pc : Nat

/-- The struct `logger`: the field `slogLogger` is the field `logger` of the
source, the `*slog.Logger` around the handler; the field `level` is the
level holder of `Process`. -/
structure logger where
  slogLogger : Handler

/-- The function `New`.  It also installs the logger as the default of
package `slog`, which no function of the package reads. -/
def New (handler : Handler) : logger :=
  { slogLogger := handler }

/-- The method `logger.SetLevel`. -/
def logger.SetLevel (_l : logger) (w : Process) (level : Slog.Level) : Process :=
  { w with level := level }

/-- The record that `logger.log` builds. -/
def logRecord (c : Call) (level : Slog.Level) (msg : String) (args : List Value) : Record :=
  (NewRecord c.now level msg c.pc).Add args

/-- The method `logger.log`.  The error that `Handle` returns is dropped. -/
def logger.log (l : logger) (c : Call) (w : Process) (level : Slog.Level) (msg : String)
    (args : List Value) : Outcome :=
  if !l.slogLogger.Enabled w.level level then ⟨w, .returned⟩
  else
    let r := logRecord c level msg args
    let w := { w with handed := w.handed ++ [r] }
    match l.slogLogger.Handle r with
    | .error msg => ⟨w, .panicked msg⟩
    | .ok handled => ⟨{ w with out := w.out ++ [handled.written] }, .returned⟩

/-- The method `logger.Trace`. -/
def logger.Trace (l : logger) (c : Call) (w : Process) (msg : String) (args : List Value) :
    Outcome :=
  l.log c w LevelTrace msg args

/-- The method `logger.Debug`. -/
def logger.Debug (l : logger) (c : Call) (w : Process) (msg : String) (args : List Value) :
    Outcome :=
  l.log c w Slog.LevelDebug msg args

/-- The method `logger.Info`. -/
def logger.Info (l : logger) (c : Call) (w : Process) (msg : String) (args : List Value) :
    Outcome :=
  l.log c w Slog.LevelInfo msg args

/-- The method `logger.Warn`. -/
def logger.Warn (l : logger) (c : Call) (w : Process) (msg : String) (args : List Value) :
    Outcome :=
  l.log c w Slog.LevelWarn msg args

/-- The method `logger.Error`. -/
def logger.Error (l : logger) (c : Call) (w : Process) (msg : String) (args : List Value) :
    Outcome :=
  l.log c w Slog.LevelError msg args

/-- The method `logger.Fatal`: `os.Exit(1)` runs when `log` has returned. -/
def logger.Fatal (l : logger) (c : Call) (w : Process) (msg : String) (args : List Value) :
    Outcome :=
  match l.log c w LevelFatal msg args with
  | ⟨w, .returned⟩ => ⟨w, .exited 1⟩
  | stopped => stopped

/-- The method `logger.Sprintf`. -/
def logger.Sprintf (_l : logger) (env : Env) (msg : String) (args : List Value) : String :=
  env.Sprintf msg args

/-- The method `logger.removeLineBreak`. -/
def logger.removeLineBreak (_l : logger) (msg : String) : String :=
  GoText.replaceLineFeeds msg

/-- The method `logger.Fatalf`. -/
def logger.Fatalf (l : logger) (env : Env) (c : Call) (w : Process) (msg : String)
    (args : List Value) : Outcome :=
  l.Fatal c w (l.Sprintf env (l.removeLineBreak msg) args) []

/-- The method `logger.Print`. -/
def logger.Print (l : logger) (c : Call) (w : Process) (msg : String) (args : List Value) :
    Outcome :=
  l.log c w w.level (l.removeLineBreak msg) args

/-- The method `logger.Printf`. -/
def logger.Printf (l : logger) (env : Env) (c : Call) (w : Process) (msg : String)
    (args : List Value) : Outcome :=
  l.log c w w.level (l.Sprintf env (l.removeLineBreak msg) args) []

end Eslog

/-! ## Sample environments and inputs

Concrete values of `Env` on which the functions above are evaluated.  The
theorems below hold for every environment; the samples only serve to run
the definitions on inputs. -/

namespace Sample

open Slog

/-- The name `fmt` prints for the dynamic type of a value. -/
def typeName : Value → String
  | .string _ => "string"
  | .int64 _ => "int64"
  | .bool _ => "bool"
  | .time _ => "time.Time"
  | .level _ => "slog.Level"
  | .source _ _ _ => "slog.Source"
  | .attr _ _ => "slog.Attr"
  | .nil => "<nil>"
  | .unsupported _ => "chan int"

/-- One verb applied to one argument: `%s` and `%v` on a string, `%d` and
`%v` on an integer; any other pairing is reported the way `fmt` reports a
wrong verb. -/
def formatVerb (verb : Char) (a : Value) : List Char :=
  match a with
  | .string s =>
      if verb = 's' ∨ verb = 'v' then s.data
      else ("%!" ++ String.mk [verb] ++ "(string=" ++ s ++ ")").data
  | .int64 i =>
      if verb = 'd' ∨ verb = 'v' then (GoText.formatInt i).data
      else ("%!" ++ String.mk [verb] ++ "(int64=" ++ GoText.formatInt i ++ ")").data
  | other =>
      ("%!" ++ String.mk [verb] ++ "(" ++ typeName other ++ "=" ++ ValueString other ++ ")").data

/-- The report of arguments that no verb consumed. -/
def extraArgs : List Value → List Char
  | [] => []
  | [a] => (typeName a ++ "=" ++ ValueString a).data
  | a :: rest => (typeName a ++ "=" ++ ValueString a ++ ", ").data ++ extraArgs rest

/-- The scan of a format by `fmt.Sprintf`, for formats made of plain text,
`%%` and one-letter verbs without flags, width or precision. -/
def scanFormat : List Char → List Value → List Char
  | [], [] => []
  | [], a :: rest => "%!(EXTRA ".data ++ extraArgs (a :: rest) ++ [')']
  | ['%'], _ => "%!(NOVERB)".data
  | '%' :: '%' :: rest, args => '%' :: scanFormat rest args
  | '%' :: verb :: rest, [] =>
      ("%!" ++ String.mk [verb] ++ "(MISSING)").data ++ scanFormat rest []
  | '%' :: verb :: rest, a :: args => formatVerb verb a ++ scanFormat rest args
  | c :: rest, args => c :: scanFormat rest args

/-- A sample of `fmt.Sprintf`: it agrees with the library on formats made of
plain text, `%%`, `%s`, `%d` and `%v` applied to string and integer
arguments. -/
def Sprintf (format : String) (args : List Value) : String :=
  String.mk (scanFormat format.data args)

/-- The function `filepath.Base` on a Unix path. -/
def Base (path : String) : String :=
  if path = "" then "."
  else
    let stripped := (path.data.reverse.dropWhile fun c => c = '/')
    let last := (stripped.takeWhile fun c => c ≠ '/').reverse
    if last = [] then "/" else String.mk last

/-- A sample of `filepath.Rel` for clean absolute Unix paths: it agrees with
the library when the target lies inside the base directory, and reports an
error otherwise. -/
def Rel (base target : String) : Option String :=
  if target = base then some "."
  else if (base.data ++ ['/']).isPrefixOf target.data then
    some (String.mk (target.data.drop (base.data.length + 1)))
  else none

/-- A call stack whose frames are known for the program counter 7 only; the
zero program counter of a hand-made record has no frame. -/
def CallersFrame (pc : Nat) : Frame :=
  if pc = 7 then { Function := "main.main", File := "/work/cmd/main.go", Line := 42 }
  else {}

/-- An environment with colours switched off (`color.NoColor`, the state of
the library when the output is not a terminal): the colour functions return
their argument. -/
def plainEnv : Env :=
  { color := fun _ s => s
    Sprintf := Sprintf
    CallersFrame := CallersFrame
    Getwd := some "/work"
    Rel := Rel
    Base := Base }

/-- The SGR code of a colour function. -/
def sgr : ColorFn → String
  | .WhiteString => "37"
  | .HiWhiteString => "97"
  | .HiGreenString => "92"
  | .HiYellowString => "93"
  | .HiMagentaString => "95"
  | .HiRedString => "91"

/-- An environment with colours switched on: the argument is written between
the escape sequence of the colour and the reset sequence. -/
def ansiEnv : Env :=
  { plainEnv with color := fun f s => "\x1b[" ++ sgr f ++ "m" ++ s ++ "\x1b[0m" }

/-- The instant 2024-05-06 07:08:09 UTC. -/
def instant : GoTime.Time :=
  { year := 2024, month := 5, day := 6, hour := 7, minute := 8, second := 9,
    nanosecond := 0, zoneName := "UTC", zoneOffset := 0 }

/-- A call at the sample instant from the sample call site. -/
def call : Eslog.Call := { now := instant, pc := 7 }

/-- A debug record made at the sample instant with the message `hi`, the
program counter `pc` and the arguments `"user", "a"`. -/
def record (pc : Nat) : Slog.Record :=
  (Slog.NewRecord instant Slog.LevelDebug "hi" pc).Add [.string "user", .string "a"]

/-- A rewrite hook that answers every field with the zero attribute, whose
key is empty. -/
def zeroHook : Pretty.replaceAttrFn := fun _ _ => ⟨"", .nil⟩

/-- A rewrite hook that answers the time field with the zero attribute and
every other field with its key and the string `OVERRIDDEN`. -/
def timeHook : Pretty.replaceAttrFn := fun _ a =>
  if a.Key = Slog.TimeKey then ⟨"", .nil⟩ else ⟨a.Key, .string "OVERRIDDEN"⟩

/-- A rewrite hook that keeps the key of every field and replaces its value
by the string `OVERRIDDEN`. -/
def overrideHook : Pretty.replaceAttrFn := fun _ a => ⟨a.Key, .string "OVERRIDDEN"⟩

/-- The handler that `NewHandler` builds from the `slog` options `o` (not
nil) and the mode `json`. -/
def handler (o : Slog.HandlerOptions) (json : Bool) : Pretty.pretty :=
  Pretty.NewHandler (some { SlogOptions := some o, JSON := json })

/-- A logger on the handler that `NewHandler` builds from nil options. -/
def nilLogger : Eslog.logger :=
  Eslog.New (Eslog.prettyHandler plainEnv (Pretty.NewHandler none))

/-- A logger on the pretty handler whose options name the level holder as
minimum level, in plain mode without colours. -/
def logger : Eslog.logger :=
  Eslog.New (Eslog.prettyHandler plainEnv (handler { Level := some .levelVar } false))

end Sample

/-! ## Lookup in the tables -/

/-- Looking up a key that differs from the first key skips the first entry. -/
theorem lookup_cons_of_ne {α β : Type} [DecidableEq α] (a k : α) (b : β) (es : List (α × β))
    (h : a ≠ k) : ((k, b) :: es).lookup a = es.lookup a := by
  have hb : (a == k) = false := by simpa using h
  simp only [List.lookup, hb]

/-- Looking up the first key finds the first entry. -/
theorem lookup_cons_self {α β : Type} [DecidableEq α] (k : α) (b : β) (es : List (α × β)) :
    ((k, b) :: es).lookup k = some b := by
  simp [List.lookup]

/-! ## Level registry -/

namespace Eslog

open Slog

/-- C1: `Config.Leveler` maps each of the six names `trace`, `debug`,
`info`, `warn`, `error`, `fatal` (compared exactly, so case matters) to its
own level, these levels increase strictly in that order, and every other
string, the empty one included, is mapped to the level of `info`. -/
theorem Config_Leveler_names_and_default :
    (LevelTrace < Slog.LevelDebug ∧ Slog.LevelDebug < Slog.LevelInfo ∧
      Slog.LevelInfo < Slog.LevelWarn ∧ Slog.LevelWarn < Slog.LevelError ∧
      Slog.LevelError < LevelFatal) ∧
    [LevelTrace, Slog.LevelDebug, Slog.LevelInfo, Slog.LevelWarn, Slog.LevelError,
      LevelFatal].Nodup ∧
    ∀ c : Config,
      c.Leveler =
        if c.Level = "trace" then LevelTrace
        else if c.Level = "debug" then Slog.LevelDebug
        else if c.Level = "info" then Slog.LevelInfo
        else if c.Level = "warn" then Slog.LevelWarn
        else if c.Level = "error" then Slog.LevelError
        else if c.Level = "fatal" then LevelFatal
        else Slog.LevelInfo := by
  refine ⟨by decide, by decide, ?_⟩
  intro c
  have hdef : (Eslog.Level levelDefault).getD 0 = Slog.LevelInfo := by decide
  unfold Config.Leveler
  rw [hdef]
  unfold Eslog.Level LevelEntries
  by_cases h1 : c.Level = "trace"
  · rw [h1, lookup_cons_self]; simp
  rw [lookup_cons_of_ne _ _ _ _ h1, if_neg h1]
  by_cases h2 : c.Level = "debug"
  · rw [h2, lookup_cons_self]; simp
  rw [lookup_cons_of_ne _ _ _ _ h2, if_neg h2]
  by_cases h3 : c.Level = "info"
  · rw [h3, lookup_cons_self]; simp
  rw [lookup_cons_of_ne _ _ _ _ h3, if_neg h3]
  by_cases h4 : c.Level = "warn"
  · rw [h4, lookup_cons_self]; simp
  rw [lookup_cons_of_ne _ _ _ _ h4, if_neg h4]
  by_cases h5 : c.Level = "error"
  · rw [h5, lookup_cons_self]; simp
  rw [lookup_cons_of_ne _ _ _ _ h5, if_neg h5]
  by_cases h6 : c.Level = "fatal"
  · rw [h6, lookup_cons_self]; simp
  rw [lookup_cons_of_ne _ _ _ _ h6, if_neg h6]
  rfl

end Eslog

/-! ## The level gate and the facade -/

namespace Eslog

open Slog

/-- The record that `log` builds, field by field: the time and the program
counter of the call, the level and the message as given, and the attributes
made from the arguments. -/
theorem logRecord_eq (c : Call) (lv : Slog.Level) (msg : String) (args : List Value) :
    logRecord c lv msg args =
      { Time := c.now, Message := msg, Level := lv, PC := c.pc,
        attrs := argsToAttrs args } := rfl

/-- What `log` does, through the two methods of the handler: when `Enabled`
answers no it returns with the state unchanged; otherwise it calls `Handle`
on the record once, and either `Handle` returns and what it wrote is
appended to the output, or `Handle` panics and so does `log`. -/
theorem log_eq (l : logger) (c : Call) (w : Process) (lv : Slog.Level) (msg : String)
    (args : List Value) :
    l.log c w lv msg args =
      if l.slogLogger.Enabled w.level lv = true then
        match l.slogLogger.Handle
          { Time := c.now, Message := msg, Level := lv, PC := c.pc,
            attrs := argsToAttrs args } with
        | .ok x =>
            ⟨{ level := w.level
               handed := w.handed ++ [{ Time := c.now, Message := msg, Level := lv,
                                        PC := c.pc, attrs := argsToAttrs args }]
               out := w.out ++ [x.written] }, .returned⟩
        | .error e =>
            ⟨{ level := w.level
               handed := w.handed ++ [{ Time := c.now, Message := msg, Level := lv,
                                        PC := c.pc, attrs := argsToAttrs args }]
               out := w.out }, .panicked e⟩
      else ⟨w, .returned⟩ := by
  unfold logger.log
  rw [logRecord_eq]
  cases hen : l.slogLogger.Enabled w.level lv with
  | false => simp
  | true =>
      simp only [Bool.not_true, Bool.false_eq_true, if_false, if_true]
      cases l.slogLogger.Handle
        { Time := c.now, Message := msg, Level := lv, PC := c.pc,
          attrs := argsToAttrs args } <;> rfl

/-- What `Fatal` does, through `log`: the state is the one `log` leaves, and
the process exits with status 1 unless `log` panicked. -/
theorem Fatal_eq (l : logger) (c : Call) (w : Process) (msg : String) (args : List Value) :
    l.Fatal c w msg args =
      if l.slogLogger.Enabled w.level LevelFatal = true then
        match l.slogLogger.Handle
          { Time := c.now, Message := msg, Level := LevelFatal, PC := c.pc,
            attrs := argsToAttrs args } with
        | .ok x =>
            ⟨{ level := w.level
               handed := w.handed ++ [{ Time := c.now, Message := msg, Level := LevelFatal,
                                        PC := c.pc, attrs := argsToAttrs args }]
               out := w.out ++ [x.written] }, .exited 1⟩
        | .error e =>
            ⟨{ level := w.level
               handed := w.handed ++ [{ Time := c.now, Message := msg, Level := LevelFatal,
                                        PC := c.pc, attrs := argsToAttrs args }]
               out := w.out }, .panicked e⟩
      else ⟨w, .exited 1⟩ := by
  unfold logger.Fatal
  rw [log_eq]
  cases hen : l.slogLogger.Enabled w.level LevelFatal with
  | false => simp
  | true =>
      simp only [if_true]
      cases l.slogLogger.Handle
        { Time := c.now, Message := msg, Level := LevelFatal, PC := c.pc,
          attrs := argsToAttrs args } <;> rfl

/-- C2: for a logger whose handler takes its minimum level from the level
holder, after `SetLevel t` the holder reads `t`, for every integer `t`; and
in every state in which the holder reads `t`, a call of `log` at level `lv`
leaves `t` in the holder (so the same holds for every later call).  When
`t ≤ lv` the call runs `Handle` of the handler once, on the record made of
the call's time and program counter, the level `lv`, the message and the
attributes of the arguments: what `Handle` wrote is appended to the output
and `log` returns, or `Handle` panics and `log` with it.  When `lv < t` the
call returns at once with the state unchanged: `Handle` is not run, nothing
is rendered or written. -/
theorem SetLevel_then_log_gate (l : logger) (w : Process) (t : Slog.Level)
    (hE : ∀ holder lv, l.slogLogger.Enabled holder lv = decide (holder ≤ lv)) :
    (l.SetLevel w t).level = t ∧
    (l.SetLevel w t).handed = w.handed ∧
    (l.SetLevel w t).out = w.out ∧
    ∀ (w' : Process) (c : Call) (lv : Slog.Level) (msg : String) (args : List Value),
      w'.level = t →
        (l.log c w' lv msg args).state.level = t ∧
        (t ≤ lv →
          l.log c w' lv msg args =
            match l.slogLogger.Handle
              { Time := c.now, Message := msg, Level := lv, PC := c.pc,
                attrs := argsToAttrs args } with
            | .ok x =>
                ⟨{ level := t
                   handed := w'.handed ++ [{ Time := c.now, Message := msg, Level := lv,
                                             PC := c.pc, attrs := argsToAttrs args }]
                   out := w'.out ++ [x.written] }, .returned⟩
            | .error e =>
                ⟨{ level := t
                   handed := w'.handed ++ [{ Time := c.now, Message := msg, Level := lv,
                                             PC := c.pc, attrs := argsToAttrs args }]
                   out := w'.out }, .panicked e⟩) ∧
        (lv < t → l.log c w' lv msg args = ⟨w', .returned⟩) := by
  refine ⟨rfl, rfl, rfl, ?_⟩
  intro w' c lv msg args hw
  have hlog := log_eq l c w' lv msg args
  rw [hE, hw] at hlog
  by_cases hle : t ≤ lv
  · rw [decide_eq_true hle] at hlog
    simp only [if_true] at hlog
    refine ⟨?_, fun _ => hlog, fun hlt => absurd hle (not_le.mpr hlt)⟩
    rw [hlog]
    cases l.slogLogger.Handle
      { Time := c.now, Message := msg, Level := lv, PC := c.pc,
        attrs := argsToAttrs args } <;> rfl
  · rw [decide_eq_false hle] at hlog
    simp only [Bool.false_eq_true, if_false] at hlog
    exact ⟨by rw [hlog]; exact hw, fun h' => absurd h' hle, fun _ => hlog⟩

/-- C2 at the sample logger: after `SetLevel(-16)` the holder reads `-16`;
a call at level `info` runs the handler, whose line is appended to the
output; a call at level `-20` returns with the state unchanged. -/
theorem SetLevel_then_log_gate_witness :
    (Sample.logger.SetLevel { level := 0 } (-16)).level = -16 ∧
    Sample.logger.log Sample.call { level := -16 } 0 "up" [] =
      ⟨{ level := -16
         handed := [{ Time := Sample.instant, Message := "up", Level := 0, PC := 7,
                      attrs := [] }]
         out := ["2024-05-06 07:08:09 INFO up\n"] }, .returned⟩ ∧
    Sample.logger.log Sample.call { level := -16 } (-20) "up" [] =
      ⟨{ level := -16 }, .returned⟩ :=
  ⟨(SetLevel_then_log_gate Sample.logger { level := 0 } (-16) (fun _ _ => rfl)).1,
    (((SetLevel_then_log_gate Sample.logger { level := 0 } (-16) (fun _ _ => rfl)).2.2.2
      { level := -16 } Sample.call 0 "up" [] rfl).2.1 (by decide)).trans
        (by with_unfolding_all rfl),
    ((SetLevel_then_log_gate Sample.logger { level := 0 } (-16) (fun _ _ => rfl)).2.2.2
      { level := -16 } Sample.call (-20) "up" [] rfl).2.2 (by decide)⟩

/-- C3, as stated, fails: with the handler that `NewHandler` builds from nil
options, whose threshold is `info`, `Fatal` hands the fatal record to
`Handle`, `Handle` panics, and the process ends by that panic and not by
`os.Exit(1)`. -/
theorem Fatal_panics_with_the_handler :
    Sample.nilLogger.Fatal Sample.call { level := 0 } "boom" [] =
      ⟨{ level := 0
         handed := [{ Time := Sample.instant, Message := "boom", Level := LevelFatal, PC := 7,
                      attrs := [] }]
         out := [] }, .panicked nilDereference⟩ ∧
    (Sample.nilLogger.Fatal Sample.call { level := 0 } "boom" []).ending ≠ .exited 1 := by
  have h : Sample.nilLogger.Fatal Sample.call { level := 0 } "boom" [] =
      ⟨{ level := 0
         handed := [{ Time := Sample.instant, Message := "boom", Level := LevelFatal, PC := 7,
                      attrs := [] }]
         out := [] }, .panicked nilDereference⟩ := by
    with_unfolding_all rfl
  refine ⟨h, ?_⟩
  rw [h]
  intro hne
  cases hne

/-- C3, amended: for every threshold `t` of the handler, every message and
all arguments.  When `LevelFatal < t`, `Fatal` and `Fatalf` run no `Handle`,
leave the state unchanged and end the process with exit status 1.  When
`t ≤ LevelFatal` they run `Handle` once on the record of level `LevelFatal`
(for `Fatalf` its message is the formatted text and it has no attributes):
if `Handle` returns, what it wrote is appended to the output and the
process then ends with exit status 1; if `Handle` panics, the process ends
by that panic and `os.Exit(1)` is not reached. -/
theorem Fatal_exits_after_emission (l : logger) (env : Env) (c : Call) (w : Process)
    (t : Slog.Level) (msg : String) (args : List Value)
    (hE : ∀ lv, l.slogLogger.Enabled w.level lv = decide (t ≤ lv)) :
    (LevelFatal < t →
      l.Fatal c w msg args = ⟨w, .exited 1⟩ ∧
      l.Fatalf env c w msg args = ⟨w, .exited 1⟩) ∧
    (t ≤ LevelFatal →
      l.Fatal c w msg args =
        (match l.slogLogger.Handle
          { Time := c.now, Message := msg, Level := LevelFatal, PC := c.pc,
            attrs := argsToAttrs args } with
        | .ok x =>
            ⟨{ level := w.level
               handed := w.handed ++ [{ Time := c.now, Message := msg, Level := LevelFatal,
                                        PC := c.pc, attrs := argsToAttrs args }]
               out := w.out ++ [x.written] }, .exited 1⟩
        | .error e =>
            ⟨{ level := w.level
               handed := w.handed ++ [{ Time := c.now, Message := msg, Level := LevelFatal,
                                        PC := c.pc, attrs := argsToAttrs args }]
               out := w.out }, .panicked e⟩) ∧
      l.Fatalf env c w msg args =
        (match l.slogLogger.Handle
          { Time := c.now, Message := env.Sprintf (GoText.replaceLineFeeds msg) args,
            Level := LevelFatal, PC := c.pc, attrs := [] } with
        | .ok x =>
            ⟨{ level := w.level
               handed := w.handed ++
                 [{ Time := c.now, Message := env.Sprintf (GoText.replaceLineFeeds msg) args,
                    Level := LevelFatal, PC := c.pc, attrs := [] }]
               out := w.out ++ [x.written] }, .exited 1⟩
        | .error e =>
            ⟨{ level := w.level
               handed := w.handed ++
                 [{ Time := c.now, Message := env.Sprintf (GoText.replaceLineFeeds msg) args,
                    Level := LevelFatal, PC := c.pc, attrs := [] }]
               out := w.out }, .panicked e⟩)) := by
  have hF : ∀ m a, l.Fatal c w m a = _ := fun m a => Fatal_eq l c w m a
  constructor
  · intro hlt
    have hdis : l.slogLogger.Enabled w.level LevelFatal = false := by
      rw [hE]; exact decide_eq_false (not_le.mpr hlt)
    constructor
    · rw [hF, hdis]; simp
    · unfold logger.Fatalf
      rw [hF, hdis]; simp
  · intro hle
    have hen : l.slogLogger.Enabled w.level LevelFatal = true := by
      rw [hE]; exact decide_eq_true hle
    constructor
    · rw [hF, hen]; simp only [if_true]
    · unfold logger.Fatalf
      rw [hF, hen]; simp only [if_true]
      rfl

/-- C3, amended, at the sample logger: with threshold `warn` the fatal
record is handed to the handler, its line is written, and the process exits
with status 1; with threshold 16, above `LevelFatal`, `Fatalf` writes
nothing and the process still exits with status 1. -/
theorem Fatal_exits_after_emission_witness :
    Sample.logger.Fatal Sample.call { level := 4 } "disk\nfull" [] =
      ⟨{ level := 4
         handed := [{ Time := Sample.instant, Message := "disk\nfull", Level := LevelFatal,
                      PC := 7, attrs := [] }]
         out := ["2024-05-06 07:08:09 FATAL disk\nfull\n"] }, .exited 1⟩ ∧
    Sample.logger.Fatalf Sample.plainEnv Sample.call { level := 4 } "disk\nfull" [] =
      ⟨{ level := 4
         handed := [{ Time := Sample.instant, Message := "disk full", Level := LevelFatal,
                      PC := 7, attrs := [] }]
         out := ["2024-05-06 07:08:09 FATAL disk full\n"] }, .exited 1⟩ ∧
    Sample.logger.Fatalf Sample.plainEnv Sample.call { level := 16 } "disk\nfull" [] =
      ⟨{ level := 16 }, .exited 1⟩ :=
  ⟨(((Fatal_exits_after_emission Sample.logger Sample.plainEnv Sample.call { level := 4 } 4
        "disk\nfull" [] (fun _ => rfl)).2 (by decide)).1).trans (by with_unfolding_all rfl),
    (((Fatal_exits_after_emission Sample.logger Sample.plainEnv Sample.call { level := 4 } 4
        "disk\nfull" [] (fun _ => rfl)).2 (by decide)).2).trans (by with_unfolding_all rfl),
    ((Fatal_exits_after_emission Sample.logger Sample.plainEnv Sample.call { level := 16 } 16
        "disk\nfull" [] (fun _ => rfl)).1 (by decide)).2⟩

end Eslog

/-! ## The pretty handler: panics -/

namespace Pretty

open Slog

/-- C4: a handler built by `NewHandler` from nil options, or from options
whose `SlogOptions` is nil, does not return from `Handle`: for every
environment and every record the first statement of `Handle` dereferences
the nil `SlogOptions` and panics, in both modes. -/
theorem Handle_panics_on_nil_SlogOptions (env : Env) (r : Record) (json : Bool) :
    (NewHandler none).Handle env r = .error nilDereference ∧
    (NewHandler (some { SlogOptions := none, JSON := json })).Handle env r =
      .error nilDereference :=
  ⟨rfl, rfl⟩

/-- C5: on the level `-16`, which `LevelConf` does not contain, and without
rewrite hook, the level rendering of plain mode panics in every environment
(the colour function of the zero entry is nil), and so does `Handle`; JSON
mode renders the default string form `DEBUG-12`. -/
theorem level_panics_in_plain_mode (env : Env) (msg : String) :
    (Sample.handler {} false).level env
      (NewRecord Sample.instant (-16) msg 0) none = .error nilDereference ∧
    (Sample.handler {} false).Handle env
      (NewRecord Sample.instant (-16) msg 0) = .error nilDereference ∧
    (Sample.handler {} true).level env
      (NewRecord Sample.instant (-16) msg 0) none = .ok "DEBUG-12" :=
  ⟨rfl, rfl, by with_unfolding_all rfl⟩

/-! ## The pretty handler: the rewrite hook -/

/-- An entry that `lookup` finds is an entry of the list. -/
theorem mem_of_lookup_eq_some {α β : Type} [DecidableEq α] (a : α) (b : β) :
    ∀ es : List (α × β), es.lookup a = some b → (a, b) ∈ es
  | [], h => by simp [List.lookup] at h
  | (k, v) :: es, h => by
      by_cases hk : a = k
      · subst hk
        rw [lookup_cons_self] at h
        simp only [Option.some.injEq] at h
        simp [h]
      · rw [lookup_cons_of_ne _ _ _ _ hk] at h
        exact List.mem_cons_of_mem _ (mem_of_lookup_eq_some a b es h)

/-- Every entry of `LevelConf` has a colour function. -/
theorem LevelConf_color (l : Slog.Level) (entry : NameColor) (h : LevelConf l = some entry) :
    ∃ c, entry.color = some c := by
  have hm := mem_of_lookup_eq_some l entry LevelConfEntries h
  simp only [LevelConfEntries, List.mem_cons, Prod.mk.injEq, List.mem_singleton,
    List.not_mem_nil, or_false] at hm
  rcases hm with h | h | h | h | h | h <;> exact ⟨_, by rw [h.2]⟩

/-- C9: for a record whose level has the entry `entry` in `LevelConf` and a
rewrite hook that answers the level field with a non-empty key and the
string `s`, the rendered level is `s` in JSON mode and, in plain mode, `s`
styled by the colour function of `entry`, the entry of the record's own
level, whatever the hook returned. -/
theorem level_rewritten_keeps_colour (p : pretty) (env : Env) (r : Record)
    (fn : replaceAttrFn) (entry : NameColor) (k s : String)
    (hL : LevelConf r.Level = some entry)
    (hfn : fn [] (Slog.AnyLevel Slog.LevelKey r.Level) = ⟨k, .string s⟩)
    (hk : k ≠ "") :
    ∃ c, entry.color = some c ∧
      p.level env r (some fn) =
        .ok (if p.HandlerOptions.JSON then s else env.color c s) := by
  obtain ⟨c, hc⟩ := LevelConf_color r.Level entry hL
  refine ⟨c, hc, ?_⟩
  unfold pretty.level
  simp only [hL, hfn, ne_eq, hk, not_false_eq_true, if_true, ValueString]
  by_cases hj : p.HandlerOptions.JSON = true
  · simp [hj, pure, Except.pure]
  · simp [hj, hc, pure, Except.pure]

/-- C9 at a `warn` record and the hook that names every level `OVERRIDDEN`:
JSON mode renders the literal string, plain mode renders it in the yellow
of `warn`. -/
theorem level_rewritten_keeps_colour_witness :
    ∃ c, (⟨"WARN", some .HiYellowString⟩ : NameColor).color = some c ∧
      (Sample.handler {} false).level Sample.ansiEnv
        (NewRecord Sample.instant Slog.LevelWarn "hi" 0)
        (some Sample.overrideHook) =
        .ok (if (Sample.handler {} false).HandlerOptions.JSON
          then "OVERRIDDEN" else Sample.ansiEnv.color c "OVERRIDDEN") :=
  level_rewritten_keeps_colour _ Sample.ansiEnv (NewRecord Sample.instant Slog.LevelWarn "hi" 0)
    Sample.overrideHook ⟨"WARN", some .HiYellowString⟩ "level"
    "OVERRIDDEN" rfl rfl (by decide)

/-- C8, as stated, fails: with the hook that answers every field with the
zero attribute (empty key), JSON mode still writes the members `time` and
`level`, and plain mode still writes the time and level segments; the output
is the one of a handler without hook. -/
theorem empty_key_does_not_drop :
    (Sample.handler { ReplaceAttr := some Sample.zeroHook } true).Handle Sample.plainEnv (NewRecord Sample.instant Slog.LevelInfo "hi" 0) =
      .ok ⟨"\x7b\"time\":\"2024-05-06T07:08:09Z\",\"level\":\"INFO\",\"msg\":\"hi\",\"attrs\":\"\x7b\x7d\"\x7d\n", none⟩ ∧
    (Sample.handler { ReplaceAttr := some Sample.zeroHook } false).Handle Sample.plainEnv (NewRecord Sample.instant Slog.LevelInfo "hi" 0) =
      .ok ⟨"2024-05-06 07:08:09 INFO hi\n", none⟩ := by
  constructor <;> with_unfolding_all rfl

end Pretty

/-! ## Facts about strings -/

/-- A string differs from the empty string when its list of characters is
not empty. -/
theorem string_ne_empty_iff (s : String) : s ≠ "" ↔ s.data ≠ [] := by
  rw [ne_eq, String.ext_iff]

/-- Appending to a non-empty string gives a non-empty string. -/
theorem append_ne_empty_left (a b : String) (h : a ≠ "") : a ++ b ≠ "" := by
  rw [string_ne_empty_iff] at h ⊢
  rw [String.data_append]
  intro hab
  exact h (List.append_eq_nil.mp hab).1

/-- Appending a non-empty string gives a non-empty string. -/
theorem append_ne_empty_right (a b : String) (h : b ≠ "") : a ++ b ≠ "" := by
  rw [string_ne_empty_iff] at h ⊢
  rw [String.data_append]
  intro hab
  exact h (List.append_eq_nil.mp hab).2

/-- The byte length of a string is the byte length of its characters. -/
theorem utf8ByteSize_eq (s : String) : s.utf8ByteSize = String.utf8Len s.data := by
  cases s
  rfl

/-- The byte length of a concatenation. -/
theorem utf8ByteSize_append (a b : String) :
    (a ++ b).utf8ByteSize = a.utf8ByteSize + b.utf8ByteSize := by
  simp only [utf8ByteSize_eq, String.data_append, String.utf8Len_append]

namespace GoText

/-- No line feed is left after `replaceLineFeeds`. -/
theorem replaceLineFeeds_no_line_feed (s : String) : '\n' ∉ (replaceLineFeeds s).data := by
  unfold replaceLineFeeds
  simp only [List.mem_map, not_exists, not_and]
  intro c _ hc
  by_cases h : c = '\n'
  · rw [if_pos h] at hc
    exact absurd hc (by decide)
  · rw [if_neg h] at hc
    exact h hc

/-- The function `replaceLineFeeds` keeps the number of characters. -/
theorem replaceLineFeeds_length (s : String) : (replaceLineFeeds s).length = s.length := by
  unfold replaceLineFeeds
  show (List.map _ s.data).length = s.data.length
  exact List.length_map _ _

end GoText

namespace Eslog

open Slog

/-- C10, as stated, fails: in the sample environment `Sprintf` returns the
format `a`, line feed, `b` with its line feed, and `Printf` and `Fatalf`
hand to the handler a message that contains the line feed of their
argument, which the handler writes into its line. -/
theorem print_helpers_keep_line_breaks :
    Sample.logger.Sprintf Sample.plainEnv "a\nb" [] = "a\nb" ∧
    '\n' ∈ (Sample.logger.Sprintf Sample.plainEnv "a\nb" []).data ∧
    Sample.logger.Printf Sample.plainEnv Sample.call { level := 0 } "%s" [.string "x\ny"] =
      ⟨{ level := 0
         handed := [{ Time := Sample.instant, Message := "x\ny", Level := 0, PC := 7,
                      attrs := [] }]
         out := ["2024-05-06 07:08:09 INFO x\ny\n"] }, .returned⟩ ∧
    Sample.logger.Fatalf Sample.plainEnv Sample.call { level := 0 } "%s" [.string "x\ny"] =
      ⟨{ level := 0
         handed := [{ Time := Sample.instant, Message := "x\ny", Level := LevelFatal, PC := 7,
                      attrs := [] }]
         out := ["2024-05-06 07:08:09 FATAL x\ny\n"] }, .exited 1⟩ := by
  refine ⟨by decide, by decide, ?_, ?_⟩ <;> with_unfolding_all rfl

/-- C10, amended: `removeLineBreak` maps the message character by character,
a line feed to a space and every other character to itself, so its result
has the length of the message and contains no line feed.  `Sprintf` returns
the formatter's result for the format as given.  `Print` emits the stripped
message with the attributes of the arguments, at the level in the holder.
`Printf` and `Fatalf` strip the format only and emit, without attributes,
what the formatter makes of the stripped format and the arguments, `Printf`
at the level in the holder and `Fatalf` at `LevelFatal`.  Emitting means:
when the handler is enabled for the level, `Handle` is run once on the
record, and what it wrote is appended to the output. -/
theorem print_helpers_strip_format (l : logger) (env : Env) (c : Call) (w : Process)
    (msg : String) (args : List Value) :
    ((l.removeLineBreak msg).data = msg.data.map (fun ch => if ch = '\n' then ' ' else ch) ∧
      '\n' ∉ (l.removeLineBreak msg).data ∧
      (l.removeLineBreak msg).length = msg.length) ∧
    l.Sprintf env msg args = env.Sprintf msg args ∧
    l.Print c w msg args =
      (if l.slogLogger.Enabled w.level w.level = true then
        match l.slogLogger.Handle
          { Time := c.now, Message := l.removeLineBreak msg, Level := w.level, PC := c.pc,
            attrs := argsToAttrs args } with
        | .ok x =>
            ⟨{ level := w.level
               handed := w.handed ++
                 [{ Time := c.now, Message := l.removeLineBreak msg, Level := w.level,
                    PC := c.pc, attrs := argsToAttrs args }]
               out := w.out ++ [x.written] }, .returned⟩
        | .error e =>
            ⟨{ level := w.level
               handed := w.handed ++
                 [{ Time := c.now, Message := l.removeLineBreak msg, Level := w.level,
                    PC := c.pc, attrs := argsToAttrs args }]
               out := w.out }, .panicked e⟩
      else ⟨w, .returned⟩) ∧
    l.Printf env c w msg args =
      (if l.slogLogger.Enabled w.level w.level = true then
        match l.slogLogger.Handle
          { Time := c.now, Message := env.Sprintf (l.removeLineBreak msg) args,
            Level := w.level, PC := c.pc, attrs := [] } with
        | .ok x =>
            ⟨{ level := w.level
               handed := w.handed ++
                 [{ Time := c.now, Message := env.Sprintf (l.removeLineBreak msg) args,
                    Level := w.level, PC := c.pc, attrs := [] }]
               out := w.out ++ [x.written] }, .returned⟩
        | .error e =>
            ⟨{ level := w.level
               handed := w.handed ++
                 [{ Time := c.now, Message := env.Sprintf (l.removeLineBreak msg) args,
                    Level := w.level, PC := c.pc, attrs := [] }]
               out := w.out }, .panicked e⟩
      else ⟨w, .returned⟩) ∧
    l.Fatalf env c w msg args =
      (if l.slogLogger.Enabled w.level LevelFatal = true then
        match l.slogLogger.Handle
          { Time := c.now, Message := env.Sprintf (l.removeLineBreak msg) args,
            Level := LevelFatal, PC := c.pc, attrs := [] } with
        | .ok x =>
            ⟨{ level := w.level
               handed := w.handed ++
                 [{ Time := c.now, Message := env.Sprintf (l.removeLineBreak msg) args,
                    Level := LevelFatal, PC := c.pc, attrs := [] }]
               out := w.out ++ [x.written] }, .exited 1⟩
        | .error e =>
            ⟨{ level := w.level
               handed := w.handed ++
                 [{ Time := c.now, Message := env.Sprintf (l.removeLineBreak msg) args,
                    Level := LevelFatal, PC := c.pc, attrs := [] }]
               out := w.out }, .panicked e⟩
      else ⟨w, .exited 1⟩) :=
  ⟨⟨rfl, GoText.replaceLineFeeds_no_line_feed msg, GoText.replaceLineFeeds_length msg⟩,
    rfl, log_eq l c w w.level _ args, log_eq l c w w.level _ [], Fatal_eq l c w _ []⟩

end Eslog

/-! ## Facts about the encoder -/

namespace GoJSON

/-- The compact text of an object is not empty. -/
theorem compact_obj_ne_empty (members : List (String × JSON)) :
    (JSON.obj members).compact ≠ "" := by
  rw [JSON.compact]
  exact append_ne_empty_right _ _ (by decide)

/-- The indented text of an object without members is two bytes long. -/
theorem indented_obj_nil (depth : Nat) : ((JSON.obj []).indented depth).utf8ByteSize = 2 := by
  rw [JSON.indented]
  decide

/-- The indented text of an object with a member is longer than two
bytes. -/
theorem indented_obj_cons (depth : Nat) (m : String × JSON) (ms : List (String × JSON)) :
    2 < ((JSON.obj (m :: ms)).indented depth).utf8ByteSize := by
  rw [JSON.indented]
  · simp only [utf8ByteSize_append]
    have h1 : ("\x7b\n" : String).utf8ByteSize = 2 := by decide
    have h2 : ("\x7d" : String).utf8ByteSize = 1 := by decide
    omega
  · intro h
    exact List.cons_ne_nil _ _ h

/-- Assigning to a map never gives the empty map. -/
theorem GoMap.set_ne_nil (m : GoMap) (k : String) (v : Slog.Value) : GoMap.set m k v ≠ [] := by
  cases m with
  | nil => simp [GoMap.set]
  | cons e rest =>
      obtain ⟨k', v'⟩ := e
      unfold GoMap.set
      split_ifs <;> simp

/-- The encoder keeps the number of entries. -/
theorem encodeMembers_length :
    ∀ (m : GoMap) (ms : List (String × JSON)), encodeMembers m = some ms → ms.length = m.length
  | [], ms, h => by
      simp only [encodeMembers, Option.some.injEq] at h
      rw [← h]
      rfl
  | (k, v) :: rest, ms, h => by
      unfold encodeMembers at h
      cases hv : encodeValue v with
      | none => simp [hv] at h
      | some j =>
          cases hr : encodeMembers rest with
          | none => simp [hv, hr] at h
          | some js =>
              simp only [hv, hr, Option.some.injEq] at h
              rw [← h, List.length_cons, List.length_cons, encodeMembers_length rest js hr]

end GoJSON

/-! ## The pretty handler: the written line -/

namespace Pretty

open Slog

/-- Filling a map from attributes gives a non-empty map as soon as the map
was not empty or there is an attribute. -/
theorem foldl_set_ne_nil :
    ∀ (as : List Attr) (m : GoJSON.GoMap), m ≠ [] ∨ as ≠ [] →
      as.foldl (fun attrs a => GoJSON.GoMap.set attrs a.Key a.Value) m ≠ []
  | [], m, h => by
      rcases h with h | h
      · exact h
      · exact absurd rfl h
  | a :: as, m, _ => by
      rw [List.foldl_cons]
      exact foldl_set_ne_nil as _ (Or.inl (GoJSON.GoMap.set_ne_nil m a.Key a.Value))

/-- The collected map is empty exactly when the record has no attribute. -/
theorem collectAttrs_eq_nil (r : Record) : collectAttrs r = [] ↔ r.attrs = [] := by
  constructor
  · intro h
    by_contra hne
    exact foldl_set_ne_nil r.attrs [] (Or.inr hne) h
  · intro h
    unfold collectAttrs
    rw [h]
    rfl

/-- In plain mode the serialised attributes are longer than two bytes
exactly when the record has an attribute and the encoder succeeds. -/
theorem attrs_size_plain (p : pretty) (r : Record) (hJ : p.HandlerOptions.JSON = false) :
    2 < (p.attrs r).utf8ByteSize ↔
      0 < r.NumAttrs ∧ (GoJSON.MarshalIndent (collectAttrs r)).isSome = true := by
  have hnum : 0 < r.NumAttrs ↔ r.attrs ≠ [] := List.length_pos
  rw [hnum]
  unfold pretty.attrs
  simp only [hJ, Bool.false_eq_true, if_false]
  unfold GoJSON.MarshalIndent
  cases hm : GoJSON.encodeMembers (collectAttrs r) with
  | none =>
      simp only [Option.map_none', Option.getD_none, Option.isSome_none, Bool.false_eq_true,
        and_false, iff_false]
      decide
  | some ms =>
      simp only [Option.map_some', Option.getD_some, Option.isSome_some, and_true]
      have hlen := GoJSON.encodeMembers_length _ _ hm
      cases ms with
      | nil =>
          have hc : collectAttrs r = [] := List.length_eq_zero.mp hlen.symm
          have hr : r.attrs = [] := (collectAttrs_eq_nil r).mp hc
          rw [GoJSON.indented_obj_nil]
          simp [hr]
      | cons m ms =>
          have hc : collectAttrs r ≠ [] := by
            intro h
            rw [h] at hlen
            simp at hlen
          have hr : r.attrs ≠ [] := fun h => hc ((collectAttrs_eq_nil r).mpr h)
          exact ⟨fun _ => hr, fun _ => GoJSON.indented_obj_cons 0 m ms⟩

/-- With options present the source rendering returns. -/
theorem source_returns (p : pretty) (env : Env) (r : Record) (fn : Option replaceAttrFn)
    (o : Slog.HandlerOptions) (hO : p.HandlerOptions.SlogOptions = some o) :
    ∃ s, p.source env r fn = .ok s := by
  unfold pretty.source
  simp only [hO]
  split_ifs
  · exact ⟨_, rfl⟩
  · exact ⟨_, rfl⟩
  · cases env.Getwd with
    | none => exact ⟨_, rfl⟩
    | some pwd =>
        simp only
        cases env.Rel pwd (env.CallersFrame r.PC).File with
        | none => exact ⟨_, rfl⟩
        | some rel =>
            simp only
            cases fn with
            | none => exact ⟨_, rfl⟩
            | some f =>
                simp only
                split_ifs
                · exact ⟨_, rfl⟩
                · exact ⟨_, rfl⟩

/-- On a level of `LevelConf` the level rendering returns. -/
theorem level_returns (p : pretty) (env : Env) (r : Record) (fn : Option replaceAttrFn)
    (entry : NameColor) (hL : LevelConf r.Level = some entry) :
    ∃ s, p.level env r fn = .ok s := by
  obtain ⟨c, hc⟩ := LevelConf_color r.Level entry hL
  obtain ⟨name, color⟩ := entry
  simp only at hc
  subst hc
  unfold pretty.level
  simp only [hL]
  cases fn with
  | none =>
      simp only
      split_ifs <;> exact ⟨_, rfl⟩
  | some f =>
      simp only
      split_ifs <;> exact ⟨_, rfl⟩

end Pretty

namespace Pretty

open Slog

/-- The words of a plain line joined by single spaces, for a line without
source segment. -/
theorem intercalate_three (a b c : String) :
    String.intercalate " " [a, b, c] = a ++ " " ++ b ++ " " ++ c := rfl

/-- The words of a plain line joined by single spaces, for a line with
source segment. -/
theorem intercalate_four (a b c d : String) :
    String.intercalate " " [a, b, c, d] = a ++ " " ++ b ++ " " ++ c ++ " " ++ d := rfl

/-- C6, as stated, fails: a record that carries one attribute whose value
the encoder rejects (a channel) yields in plain mode the line of time,
level and message with no attributes segment. -/
theorem plain_line_drops_unencodable_attrs :
    (Record.Add (NewRecord Sample.instant Slog.LevelDebug "hi" 0)
        [.string "ch", .unsupported "0xc000012345"]).NumAttrs = 1 ∧
    (Sample.handler {} false).Handle Sample.plainEnv
        (Record.Add (NewRecord Sample.instant Slog.LevelDebug "hi" 0)
          [.string "ch", .unsupported "0xc000012345"]) =
      .ok ⟨"2024-05-06 07:08:09 DEBUG hi\n", none⟩ := by
  constructor <;> with_unfolding_all rfl

/-- C6, amended: in plain mode, for every record whose level is in
`LevelConf`, `Handle` returns nil after writing one line: the rendered
time, level, source (only when the rendered source is not empty) and
message joined by single spaces, followed by one space and the serialised
attributes exactly when the record carries at least one attribute and the
encoder accepts the attributes; a line feed ends the line. -/
theorem Handle_plain_line (p : pretty) (env : Env) (r : Record) (o : Slog.HandlerOptions)
    (entry : NameColor) (hJ : p.HandlerOptions.JSON = false)
    (hO : p.HandlerOptions.SlogOptions = some o) (hL : LevelConf r.Level = some entry) :
    ∃ level source,
      p.level env r o.ReplaceAttr = .ok level ∧
      p.source env r o.ReplaceAttr = .ok source ∧
      p.Handle env r =
        .ok ⟨String.intercalate " "
              ([p.dateTime env r o.ReplaceAttr, level] ++
                (if source = "" then [] else [source]) ++ [p.message env r]) ++
            (if 0 < r.NumAttrs ∧ (GoJSON.MarshalIndent (collectAttrs r)).isSome = true
              then " " ++ p.attrs r else "") ++ "\n", none⟩ := by
  obtain ⟨level, hlevel⟩ := level_returns p env r o.ReplaceAttr entry hL
  obtain ⟨source, hsource⟩ := source_returns p env r o.ReplaceAttr o hO
  refine ⟨level, source, hlevel, hsource, ?_⟩
  have hsize := attrs_size_plain p r hJ
  unfold pretty.Handle
  simp only [hO, hJ, hlevel, hsource, bind, Except.bind, pure, Except.pure, Println,
    Bool.false_eq_true, if_false, gt_iff_lt]
  by_cases hs : source = ""
  · by_cases ha : 0 < r.NumAttrs ∧ (GoJSON.MarshalIndent (collectAttrs r)).isSome = true
    · simp only [hs, ne_eq, not_true_eq_false, if_false, if_true, hsize.mpr ha, ha, and_self,
        List.append_nil, List.cons_append, List.nil_append, intercalate_three,
        not_false_eq_true, String.append_assoc]
    · have hn : ¬ 2 < (p.attrs r).utf8ByteSize := fun h => ha (hsize.mp h)
      simp only [hs, ne_eq, not_true_eq_false, if_false, if_true, hn, ha,
        List.append_nil, List.cons_append, List.nil_append, intercalate_three,
        String.append_assoc, String.empty_append]
  · by_cases ha : 0 < r.NumAttrs ∧ (GoJSON.MarshalIndent (collectAttrs r)).isSome = true
    · simp only [hs, ne_eq, not_false_eq_true, if_false, if_true, hsize.mpr ha, ha, and_self,
        List.cons_append, List.nil_append, intercalate_four, String.append_assoc]
    · have hn : ¬ 2 < (p.attrs r).utf8ByteSize := fun h => ha (hsize.mp h)
      simp only [hs, ne_eq, not_false_eq_true, if_false, if_true, hn, ha,
        List.cons_append, List.nil_append, intercalate_four, String.append_assoc,
        String.empty_append]

/-- C6, amended, at a debug record from the sample call site with the
attribute `user="a"`, source capture on and colours on. -/
theorem Handle_plain_line_witness :
    ∃ level source,
      (Sample.handler { AddSource := true } false).level Sample.ansiEnv
          (Sample.record 7) none = .ok level ∧
      (Sample.handler { AddSource := true } false).source Sample.ansiEnv
          (Sample.record 7) none = .ok source ∧
      (Sample.handler { AddSource := true } false).Handle Sample.ansiEnv
          (Sample.record 7) =
        .ok ⟨String.intercalate " "
              ([(Sample.handler { AddSource := true } false).dateTime Sample.ansiEnv
                  (Sample.record 7) none, level] ++
                (if source = "" then [] else [source]) ++
                [(Sample.handler { AddSource := true } false).message Sample.ansiEnv
                  (Sample.record 7)]) ++
            (if 0 < (Sample.record 7).NumAttrs ∧
                (GoJSON.MarshalIndent (collectAttrs (Sample.record 7))).isSome = true
              then " " ++ (Sample.handler { AddSource := true } false).attrs
                (Sample.record 7)
              else "") ++ "\n", none⟩ :=
  Handle_plain_line (Sample.handler { AddSource := true } false) Sample.ansiEnv
    (Sample.record 7)
    { AddSource := true } ⟨"DEBUG", some .HiWhiteString⟩ rfl rfl rfl

end Pretty

namespace GoTime

/-- The date and clock part of a formatted time is not empty. -/
theorem dateClock_ne_empty (t : Time) (sep : String) : t.dateClock sep ≠ "" := by
  unfold Time.dateClock
  exact append_ne_empty_left _ _ (append_ne_empty_right _ _ (by decide))

/-- A time in the layout `RFC3339Nano` is not empty. -/
theorem FormatRFC3339Nano_ne_empty (t : Time) : t.FormatRFC3339Nano ≠ "" := by
  unfold Time.FormatRFC3339Nano
  exact append_ne_empty_left _ _ (append_ne_empty_left _ _ (dateClock_ne_empty t "T"))

end GoTime

namespace Slog

/-- The default string form of a level is not empty. -/
theorem LevelString_ne_empty (l : Level) : LevelString l ≠ "" := by
  unfold LevelString
  simp only
  split_ifs <;>
    first
      | exact (by decide)
      | exact append_ne_empty_left _ _ (by decide)

end Slog

namespace Pretty

open Slog

/-- The name of every entry of `LevelConf` is not empty. -/
theorem LevelConf_name_ne_empty (l : Slog.Level) (entry : NameColor)
    (h : LevelConf l = some entry) : entry.name ≠ "" := by
  have hm := mem_of_lookup_eq_some l entry LevelConfEntries h
  simp only [LevelConfEntries, List.mem_cons, Prod.mk.injEq, List.mem_singleton,
    List.not_mem_nil, or_false] at hm
  rcases hm with h | h | h | h | h | h <;> rw [h.2] <;> decide

/-- In JSON mode without rewrite hook the rendered level is the name of
the entry of `LevelConf`, or the default string form of a level without
entry. -/
theorem level_json_no_hook (p : pretty) (env : Env) (r : Record)
    (hJ : p.HandlerOptions.JSON = true) :
    p.level env r none =
      .ok (match LevelConf r.Level with
        | some entry => entry.name
        | none => LevelString r.Level) := by
  unfold pretty.level
  simp only [hJ, if_true]
  cases LevelConf r.Level <;> rfl

/-- C7, as stated, fails: for a debug record with the single attribute
`user="a"` the member `attrs` of the written object is a JSON string, whose
content is the text of the object of the attributes, and not that object. -/
theorem json_attrs_is_a_string :
    (Sample.handler {} true).Handle Sample.plainEnv
        (Sample.record 0) =
      .ok ⟨(GoJSON.JSON.obj [("time", .str "2024-05-06T07:08:09Z"), ("level", .str "DEBUG"),
          ("msg", .str "hi"), ("attrs", .str "\x7b\"user\":\"a\"\x7d")]).compact ++ "\n",
        none⟩ ∧
    (GoJSON.JSON.obj [("time", .str "2024-05-06T07:08:09Z"), ("level", .str "DEBUG"),
        ("msg", .str "hi"), ("attrs", .str "\x7b\"user\":\"a\"\x7d")]).compact =
      "\x7b\"time\":\"2024-05-06T07:08:09Z\",\"level\":\"DEBUG\",\"msg\":\"hi\",\"attrs\":\"\x7b\\\"user\\\":\\\"a\\\"\x7d\"\x7d" ∧
    (GoJSON.JSON.obj [("time", .str "2024-05-06T07:08:09Z"), ("level", .str "DEBUG"),
        ("msg", .str "hi"), ("attrs", .str "\x7b\"user\":\"a\"\x7d")]).compact ≠
      (GoJSON.JSON.obj [("time", .str "2024-05-06T07:08:09Z"), ("level", .str "DEBUG"),
        ("msg", .str "hi"), ("attrs", .obj [("user", .str "a")])]).compact := by
  refine ⟨?_, ?_, ?_⟩
  · with_unfolding_all rfl
  · decide
  · decide

/-- C7, amended: in JSON mode with source capture disabled and no rewrite
hook, for every record with a non-empty message and at least one attribute
whose attributes the encoder accepts, `Handle` returns nil after writing one
line, the JSON object with exactly the members `time`, `level`, `msg` and
`attrs` in that order (no `source`): `level` is the display name of the
level (the name of its entry in `LevelConf`, else its default string form)
and `attrs` is a JSON string whose content is the compact JSON text of the
object that maps each attribute key to its value. -/
theorem Handle_json_line (p : pretty) (env : Env) (r : Record) (o : Slog.HandlerOptions)
    (a : String) (hJ : p.HandlerOptions.JSON = true)
    (hO : p.HandlerOptions.SlogOptions = some o) (hS : o.AddSource = false)
    (hR : o.ReplaceAttr = none) (hM : r.Message ≠ "") (_hN : 0 < r.NumAttrs)
    (hA : GoJSON.Marshal (collectAttrs r) = some a) :
    p.Handle env r =
      .ok ⟨(GoJSON.JSON.obj
            [("time", .str r.Time.FormatRFC3339Nano),
             ("level", .str (match LevelConf r.Level with
                | some entry => entry.name
                | none => LevelString r.Level)),
             ("msg", .str r.Message),
             ("attrs", .str a)]).compact ++ "\n", none⟩ := by
  have hlevel := level_json_no_hook p env r hJ
  have hsource : p.source env r none = .ok "" := by
    unfold pretty.source
    simp [hO, hS]
    rfl
  have hattrs : p.attrs r = a := by
    unfold pretty.attrs
    simp [hJ, hA]
  have htime : p.dateTime env r none = r.Time.FormatRFC3339Nano := by
    unfold pretty.dateTime
    simp [hJ]
  have hmsg : p.message env r = r.Message := by
    unfold pretty.message
    simp [hJ]
  have hT := GoTime.FormatRFC3339Nano_ne_empty r.Time
  have hLn : (match LevelConf r.Level with
      | some entry => entry.name
      | none => LevelString r.Level) ≠ "" := by
    cases hc : LevelConf r.Level with
    | none => exact LevelString_ne_empty r.Level
    | some entry => exact LevelConf_name_ne_empty r.Level entry hc
  have hAn : a ≠ "" := by
    unfold GoJSON.Marshal at hA
    cases hm : GoJSON.encodeMembers (collectAttrs r) with
    | none => simp [hm] at hA
    | some ms =>
        simp only [hm, Option.map_some', Option.some.injEq] at hA
        rw [← hA]
        exact GoJSON.compact_obj_ne_empty ms
  unfold pretty.Handle
  simp only [hO, hR, hJ, hlevel, hsource, hattrs, htime, hmsg, bind, Except.bind, pure,
    Except.pure, if_true, Println, jsonMessage.Marshal, jsonMessage.members]
  simp [List.filter, hT, hLn, hM, hAn]

/-- C7, amended, at a debug record with the single attribute `user="a"`. -/
theorem Handle_json_line_witness :
    (Sample.handler {} true).Handle Sample.plainEnv (Sample.record 0) =
      .ok ⟨(GoJSON.JSON.obj
            [("time", .str "2024-05-06T07:08:09Z"),
             ("level", .str "DEBUG"),
             ("msg", .str "hi"),
             ("attrs", .str "\x7b\"user\":\"a\"\x7d")]).compact ++ "\n", none⟩ :=
  (Handle_json_line (Sample.handler {} true) Sample.plainEnv (Sample.record 0)
    {} "\x7b\"user\":\"a\"\x7d" rfl rfl rfl rfl (by decide) (by decide)
    (by with_unfolding_all rfl)).trans (by with_unfolding_all rfl)

end Pretty

/-! ## The pretty handler: a hook answer with an empty key -/

namespace Pretty

open Slog

/-- What `Handle` writes once the level and the source are rendered: the
JSON object of the five fields in JSON mode, the line of the segments in
plain mode. -/
theorem Handle_of_fields (p : pretty) (env : Env) (r : Record) (o : Slog.HandlerOptions)
    (level source : String) (hO : p.HandlerOptions.SlogOptions = some o)
    (hl : p.level env r o.ReplaceAttr = .ok level)
    (hs : p.source env r o.ReplaceAttr = .ok source) :
    p.Handle env r =
      .ok (if p.HandlerOptions.JSON = true then
          ⟨(GoJSON.JSON.obj (jsonMessage.members
              { Time := p.dateTime env r o.ReplaceAttr, Level := level, Source := source,
                Message := p.message env r, Attrs := p.attrs r })).compact ++ "\n", none⟩
        else
          ⟨(if source = "" then p.dateTime env r o.ReplaceAttr ++ " " ++ level ++ " " ++
                p.message env r
              else p.dateTime env r o.ReplaceAttr ++ " " ++ level ++ " " ++ source ++ " " ++
                p.message env r) ++
            (if 2 < (p.attrs r).utf8ByteSize then " " ++ p.attrs r else "") ++ "\n", none⟩) := by
  unfold pretty.Handle
  simp only [hO, hl, hs, bind, Except.bind, pure, Except.pure, Println, jsonMessage.Marshal,
    gt_iff_lt]
  by_cases hJ : p.HandlerOptions.JSON = true
  · simp only [hJ, if_true]
  · simp only [hJ, Bool.false_eq_true, if_false]
    by_cases hsrc : source = ""
    · by_cases ha : 2 < (p.attrs r).utf8ByteSize
      · simp only [hsrc, ha, ne_eq, not_true_eq_false, if_false, if_true, String.append_assoc]
      · simp only [hsrc, ha, ne_eq, not_true_eq_false, if_false, if_true, String.append_assoc,
          String.empty_append]
    · by_cases ha : 2 < (p.attrs r).utf8ByteSize
      · simp only [hsrc, ha, ne_eq, not_false_eq_true, if_false, if_true, String.append_assoc]
      · simp only [hsrc, ha, ne_eq, not_false_eq_true, if_false, if_true, String.append_assoc,
          String.empty_append]

/-- A non-empty time has its member in the object of a `jsonMessage`. -/
theorem mem_members_time (m : jsonMessage) (h : m.Time ≠ "") :
    ("time", GoJSON.JSON.str m.Time) ∈ m.members := by
  simp only [jsonMessage.members, List.mem_map, List.mem_filter]
  exact ⟨("time", m.Time), ⟨by simp, by simpa using h⟩, rfl⟩

/-- A non-empty level has its member in the object of a `jsonMessage`. -/
theorem mem_members_level (m : jsonMessage) (h : m.Level ≠ "") :
    ("level", GoJSON.JSON.str m.Level) ∈ m.members := by
  simp only [jsonMessage.members, List.mem_map, List.mem_filter]
  exact ⟨("level", m.Level), ⟨by simp, by simpa using h⟩, rfl⟩

/-- A non-empty source has its member in the object of a `jsonMessage`. -/
theorem mem_members_source (m : jsonMessage) (h : m.Source ≠ "") :
    ("source", GoJSON.JSON.str m.Source) ∈ m.members := by
  simp only [jsonMessage.members, List.mem_map, List.mem_filter]
  exact ⟨("source", m.Source), ⟨by simp, by simpa using h⟩, rfl⟩

/-- An empty key for the time field leaves the time as rendered without
hook. -/
theorem dateTime_of_empty_key (p : pretty) (env : Env) (r : Record) (fn : replaceAttrFn)
    (h : (fn [] (Slog.Time Slog.TimeKey r.Time.Round0)).Key = "") :
    p.dateTime env r (some fn) = p.dateTime env r none := by
  simp [pretty.dateTime, h]

/-- An empty key for the level field leaves the level as rendered without
hook. -/
theorem level_of_empty_key (p : pretty) (env : Env) (r : Record) (fn : replaceAttrFn)
    (h : (fn [] (Slog.AnyLevel Slog.LevelKey r.Level)).Key = "") :
    p.level env r (some fn) = p.level env r none := by
  simp [pretty.level, h]

/-- An empty key for the source field leaves the source as rendered without
hook. -/
theorem source_of_empty_key (p : pretty) (env : Env) (r : Record) (fn : replaceAttrFn)
    (h : (fn [] (Slog.AnySource Slog.SourceKey
      { Function := (env.CallersFrame r.PC).Function, File := (env.CallersFrame r.PC).File,
        Line := (env.CallersFrame r.PC).Line })).Key = "") :
    p.source env r (some fn) = p.source env r none := by
  unfold pretty.source
  simp only [h, ne_eq, not_true_eq_false, if_false]

/-- In plain mode without hook the level of an entry of `LevelConf` is its
name styled by its colour function. -/
theorem level_plain_no_hook (p : pretty) (env : Env) (r : Record) (entry : NameColor)
    (c : ColorFn) (hJ : p.HandlerOptions.JSON = false) (hL : LevelConf r.Level = some entry)
    (hc : entry.color = some c) :
    p.level env r none = .ok (env.color c entry.name) := by
  unfold pretty.level
  simp only [hL, hJ, Bool.false_eq_true, if_false, hc]
  rfl

/-- C8, amended: for a handler with the rewrite hook `fn`, each standard
field by itself: when `fn` answers the time (the level, the source) with an
attribute whose key is empty, the answer is ignored and the field is
rendered exactly as without hook, whatever `fn` answers for the other
fields.  In JSON mode the written object then has the member `time` with
the RFC 3339 time (the member `level` with the display name of the level,
the member `source` with the captured source when there is one).  In plain
mode, for a level of `LevelConf`, the written line then has the styled
date and time as its first segment (the styled name of the level as its
second segment, the captured source as its third segment when there is
one). -/
theorem empty_key_keeps_field (p : pretty) (env : Env) (r : Record)
    (o : Slog.HandlerOptions) (fn : replaceAttrFn)
    (hO : p.HandlerOptions.SlogOptions = some o) (hR : o.ReplaceAttr = some fn) :
    ((fn [] (Slog.Time Slog.TimeKey r.Time.Round0)).Key = "" →
      p.dateTime env r (some fn) = p.dateTime env r none) ∧
    ((fn [] (Slog.AnyLevel Slog.LevelKey r.Level)).Key = "" →
      p.level env r (some fn) = p.level env r none) ∧
    ((fn [] (Slog.AnySource Slog.SourceKey
        { Function := (env.CallersFrame r.PC).Function, File := (env.CallersFrame r.PC).File,
          Line := (env.CallersFrame r.PC).Line })).Key = "" →
      p.source env r (some fn) = p.source env r none) ∧
    (p.HandlerOptions.JSON = true →
      ∃ level source,
        p.level env r (some fn) = .ok level ∧ p.source env r (some fn) = .ok source ∧
        p.Handle env r =
          .ok ⟨(GoJSON.JSON.obj (jsonMessage.members
              { Time := p.dateTime env r (some fn), Level := level, Source := source,
                Message := p.message env r, Attrs := p.attrs r })).compact ++ "\n", none⟩ ∧
        ((fn [] (Slog.Time Slog.TimeKey r.Time.Round0)).Key = "" →
          p.dateTime env r (some fn) = r.Time.FormatRFC3339Nano ∧
          ("time", GoJSON.JSON.str r.Time.FormatRFC3339Nano) ∈ jsonMessage.members
            { Time := p.dateTime env r (some fn), Level := level, Source := source,
              Message := p.message env r, Attrs := p.attrs r }) ∧
        ((fn [] (Slog.AnyLevel Slog.LevelKey r.Level)).Key = "" →
          level = (match LevelConf r.Level with
            | some entry => entry.name
            | none => LevelString r.Level) ∧
          ("level", GoJSON.JSON.str (match LevelConf r.Level with
            | some entry => entry.name
            | none => LevelString r.Level)) ∈ jsonMessage.members
            { Time := p.dateTime env r (some fn), Level := level, Source := source,
              Message := p.message env r, Attrs := p.attrs r }) ∧
        ((fn [] (Slog.AnySource Slog.SourceKey
            { Function := (env.CallersFrame r.PC).Function,
              File := (env.CallersFrame r.PC).File,
              Line := (env.CallersFrame r.PC).Line })).Key = "" →
          p.source env r none = .ok source ∧
          (source ≠ "" → ("source", GoJSON.JSON.str source) ∈ jsonMessage.members
            { Time := p.dateTime env r (some fn), Level := level, Source := source,
              Message := p.message env r, Attrs := p.attrs r }))) ∧
    (p.HandlerOptions.JSON = false →
      ∀ (entry : NameColor) (c : ColorFn), LevelConf r.Level = some entry →
        entry.color = some c →
        ∃ level source,
          p.level env r (some fn) = .ok level ∧ p.source env r (some fn) = .ok source ∧
          p.Handle env r =
            .ok ⟨(if source = "" then p.dateTime env r (some fn) ++ " " ++ level ++ " " ++
                    p.message env r
                  else p.dateTime env r (some fn) ++ " " ++ level ++ " " ++ source ++ " " ++
                    p.message env r) ++
                (if 2 < (p.attrs r).utf8ByteSize then " " ++ p.attrs r else "") ++ "\n",
              none⟩ ∧
          ((fn [] (Slog.Time Slog.TimeKey r.Time.Round0)).Key = "" →
            p.dateTime env r (some fn) = env.color .WhiteString r.Time.FormatDateTime) ∧
          ((fn [] (Slog.AnyLevel Slog.LevelKey r.Level)).Key = "" →
            level = env.color c entry.name) ∧
          ((fn [] (Slog.AnySource Slog.SourceKey
              { Function := (env.CallersFrame r.PC).Function,
                File := (env.CallersFrame r.PC).File,
                Line := (env.CallersFrame r.PC).Line })).Key = "" →
            p.source env r none = .ok source)) := by
  refine ⟨dateTime_of_empty_key p env r fn, level_of_empty_key p env r fn,
    source_of_empty_key p env r fn, ?_, ?_⟩
  · intro hJ
    obtain ⟨source, hs⟩ := source_returns p env r (some fn) o hO
    have hlevel : ∃ level, p.level env r (some fn) = .ok level := by
      unfold pretty.level
      simp only [hJ, if_true]
      exact ⟨_, rfl⟩
    obtain ⟨level, hl⟩ := hlevel
    have hH := Handle_of_fields p env r o level source hO (hR ▸ hl) (hR ▸ hs)
    rw [hR] at hH
    simp only [hJ, if_true] at hH
    refine ⟨level, source, hl, hs, hH, ?_, ?_, ?_⟩
    · intro hT
      have hd : p.dateTime env r (some fn) = r.Time.FormatRFC3339Nano := by
        rw [dateTime_of_empty_key p env r fn hT]
        simp [pretty.dateTime, hJ]
      refine ⟨hd, ?_⟩
      have hm := mem_members_time
        { Time := p.dateTime env r (some fn), Level := level, Source := source,
          Message := p.message env r, Attrs := p.attrs r }
        (by rw [hd]; exact GoTime.FormatRFC3339Nano_ne_empty r.Time)
      rw [hd] at hm ⊢
      exact hm
    · intro hL
      have hlv : level = (match LevelConf r.Level with
          | some entry => entry.name
          | none => LevelString r.Level) := by
        have h1 := level_of_empty_key p env r fn hL
        rw [hl, level_json_no_hook p env r hJ] at h1
        exact Except.ok.inj h1
      refine ⟨hlv, ?_⟩
      have hne : level ≠ "" := by
        rw [hlv]
        cases hc : LevelConf r.Level with
        | none => exact LevelString_ne_empty r.Level
        | some entry => exact LevelConf_name_ne_empty r.Level entry hc
      have hm := mem_members_level
        { Time := p.dateTime env r (some fn), Level := level, Source := source,
          Message := p.message env r, Attrs := p.attrs r } hne
      rw [← hlv]
      exact hm
    · intro hS
      have h1 := source_of_empty_key p env r fn hS
      rw [hs] at h1
      exact ⟨h1.symm, fun hne => mem_members_source
        { Time := p.dateTime env r (some fn), Level := level, Source := source,
          Message := p.message env r, Attrs := p.attrs r } hne⟩
  · intro hJ entry c hLc hc
    obtain ⟨source, hs⟩ := source_returns p env r (some fn) o hO
    obtain ⟨level, hl⟩ := level_returns p env r (some fn) entry hLc
    have hH := Handle_of_fields p env r o level source hO (hR ▸ hl) (hR ▸ hs)
    rw [hR] at hH
    simp only [hJ, Bool.false_eq_true, if_false] at hH
    refine ⟨level, source, hl, hs, hH, ?_, ?_, ?_⟩
    · intro hT
      rw [dateTime_of_empty_key p env r fn hT]
      simp [pretty.dateTime, hJ]
    · intro hL
      have h1 := level_of_empty_key p env r fn hL
      rw [hl, level_plain_no_hook p env r entry c hJ hLc hc] at h1
      exact Except.ok.inj h1
    · intro hS
      have h1 := source_of_empty_key p env r fn hS
      rw [hs] at h1
      exact h1.symm

/-- C8, amended, at the hook that answers the time with the zero attribute
and renames every other field, and at the hook that answers every field
with the zero attribute: in JSON mode the time keeps its hook-free
rendering and its member while the level is renamed, and in plain mode with
colours the line starts with the styled date and time and the styled name of
the level. -/
theorem empty_key_keeps_field_witness :
    ((Sample.handler { ReplaceAttr := some Sample.timeHook } true).dateTime Sample.plainEnv
        (NewRecord Sample.instant Slog.LevelInfo "hi" 0) (some Sample.timeHook) =
      (Sample.handler { ReplaceAttr := some Sample.timeHook } true).dateTime Sample.plainEnv
        (NewRecord Sample.instant Slog.LevelInfo "hi" 0) none) ∧
    (∃ level source,
      (Sample.handler { ReplaceAttr := some Sample.timeHook } true).Handle Sample.plainEnv
          (NewRecord Sample.instant Slog.LevelInfo "hi" 0) =
        .ok ⟨(GoJSON.JSON.obj (jsonMessage.members
            { Time := "2024-05-06T07:08:09Z", Level := level, Source := source,
              Message := "hi", Attrs := "\x7b\x7d" })).compact ++ "\n", none⟩ ∧
      level = "OVERRIDDEN" ∧
      ("time", GoJSON.JSON.str "2024-05-06T07:08:09Z") ∈ jsonMessage.members
        { Time := "2024-05-06T07:08:09Z", Level := level, Source := source,
          Message := "hi", Attrs := "\x7b\x7d" }) ∧
    (∃ level source,
      (Sample.handler { ReplaceAttr := some Sample.zeroHook } false).Handle Sample.ansiEnv
          (NewRecord Sample.instant Slog.LevelInfo "hi" 0) =
        .ok ⟨"\x1b[37m2024-05-06 07:08:09\x1b[0m" ++ " " ++ level ++ " " ++
          "\x1b[97mhi\x1b[0m" ++ "" ++ "\n", none⟩ ∧
      level = "\x1b[92mINFO\x1b[0m" ∧ source = "") := by
  refine ⟨(empty_key_keeps_field (Sample.handler { ReplaceAttr := some Sample.timeHook } true)
      Sample.plainEnv (NewRecord Sample.instant Slog.LevelInfo "hi" 0)
      { ReplaceAttr := some Sample.timeHook } Sample.timeHook rfl rfl).1 rfl, ?_, ?_⟩
  · obtain ⟨level, source, hl, _, hH, hT, _, _⟩ :=
      (empty_key_keeps_field (Sample.handler { ReplaceAttr := some Sample.timeHook } true)
        Sample.plainEnv (NewRecord Sample.instant Slog.LevelInfo "hi" 0)
        { ReplaceAttr := some Sample.timeHook } Sample.timeHook rfl rfl).2.2.2.1 rfl
    have hlv : level = "OVERRIDDEN" :=
      (Except.ok.inj (hl.symm.trans (by with_unfolding_all rfl))).symm ▸ rfl
    exact ⟨level, source, hH.trans (by with_unfolding_all rfl), hlv,
      by with_unfolding_all exact (hT rfl).2⟩
  · obtain ⟨level, source, _, hs, hH, _, hL, hS⟩ :=
      (empty_key_keeps_field (Sample.handler { ReplaceAttr := some Sample.zeroHook } false)
        Sample.ansiEnv (NewRecord Sample.instant Slog.LevelInfo "hi" 0)
        { ReplaceAttr := some Sample.zeroHook } Sample.zeroHook rfl rfl).2.2.2.2 rfl
        ⟨"INFO", some .HiGreenString⟩ .HiGreenString rfl rfl
    have hlv : level = "\x1b[92mINFO\x1b[0m" := (hL rfl).trans (by decide)
    have hsrc : source = "" :=
      (Except.ok.inj ((hS rfl).symm.trans (by with_unfolding_all rfl)))
    subst hsrc
    exact ⟨level, "", hH.trans (by with_unfolding_all rfl), hlv, rfl⟩

end Pretty
